import Mathlib

/-!
# Multipath TCP subflow agent (`ns-2.34/tcp/mptcp-full.cc`)

A shallow embedding of the sequence-mapping and window-coupling logic of
`MpFullTcpAgent`, followed by theorems about it.

Conventions of the embedding

* C++ `int` values are `Int`.  Signed overflow is undefined behaviour in C++,
  so the embedding describes the executions in which every sum and difference
  stays in range.
* C++ `double` values are exact rationals (`ℚ`): the window formulas are
  studied in exact arithmetic.
* `vector<dsn_mapping>` is `List dsn_mapping`, front of the vector first.
* Members of other classes (`MptcpAgent`, the base TCP agent) and constants of
  headers that are not part of the sources are parameters.
-/

set_option autoImplicit false

namespace MpFullTcp

/-! ## Data model -/

/-- Entry of `mptcp_dsnmap_` and `mptcp_recv_dsnmap_`: the fields read and
written by `mptcp-full.cc` (`sseqnum`, `dseqnum`, `length`, `sentseq`). -/
structure dsn_mapping where
  sseqnum : Int
  dseqnum : Int
  length : Int
  sentseq : Int
deriving DecidableEq, Repr

/-- Modelled from the spec: the three-argument constructor
`dsn_mapping (dseqnum, sseqnum, length)` declared in `mptcp-full.h`, which is
not among the sources.  The spec creates a mapping "with `sent_subflow_seq`
unset", and unset is 0 ("0 until first transmission"), which is also what the
test `!p->sentseq` of `sendpacket` reads as "first transmission". -/
def dsn_mapping.create (dseqnum sseqnum length : Int) : dsn_mapping :=
  { sseqnum := sseqnum, dseqnum := dseqnum, length := length, sentseq := 0 }

/-- The MPTCP fields of `hdr_tcp` written by the mapping loop of `sendpacket`. -/
structure hdr_tcp where
  mp_dsn : Int
  mp_subseq : Int
  mp_dsnlen : Int
deriving DecidableEq, Repr

/-- The members of `MpFullTcpAgent` (own and inherited) that the functions of
`mptcp-full.cc` modelled here read or write. -/
structure MpFullTcpAgent where
  mptcp_dsnmap_ : List dsn_mapping
  mptcp_recv_dsnmap_ : List dsn_mapping
  mptcp_option_size_ : Int
  curseq_ : Int
  cwnd_ : ℚ
  ssthresh_ : Int
  mptcp_allow_slowstart_ : Int
  mptcp_byte_acked_ : ℚ
  increase_num_ : ℚ
  last_cwnd_action_ : Int
  max_ssthresh_ : Int
  maxcwnd_ : Int
  highest_ack_ : Int
  maxseg_ : Int
  mptcp_prev_ackno_ : Int
  mptcp_prev_sqminseq_ : Int
  mptcp_prev_sqtotal_ : Int
deriving DecidableEq

/-- A subflow agent with empty mapping tables and zeroed counters, the base of
the concrete instances below. -/
def blankAgent : MpFullTcpAgent :=
  { mptcp_dsnmap_ := [], mptcp_recv_dsnmap_ := [], mptcp_option_size_ := 0,
    curseq_ := 0, cwnd_ := 1, ssthresh_ := 0, mptcp_allow_slowstart_ := 1,
    mptcp_byte_acked_ := 0, increase_num_ := 1, last_cwnd_action_ := 0,
    max_ssthresh_ := 0, maxcwnd_ := 0, highest_ack_ := 0, maxseg_ := 1,
    mptcp_prev_ackno_ := 0, mptcp_prev_sqminseq_ := 0, mptcp_prev_sqtotal_ := 0 }

/-- A subflow in congestion avoidance whose window sits at its cap:
`cwnd_ = 25`, `ssthresh_ = 10`, `maxcwnd_ = 25`, `mptcp_byte_acked_ = 4`. -/
def clampAgent : MpFullTcpAgent :=
  { blankAgent with cwnd_ := 25, ssthresh_ := 10, mptcp_byte_acked_ := 4, maxcwnd_ := 25 }

/-! ## `sendpacket`: attaching a mapping to an outgoing segment -/

/-- What the `for` loop of `sendpacket` (lines 208-229) leaves behind: the
part of the vector from the iterator on, the header and the option size. -/
structure DsnScan where
  maps : List dsn_mapping
  tcph : hdr_tcp
  optsize : Int
deriving DecidableEq, Repr

/-- The `for` loop of `sendpacket` over `mptcp_dsnmap_`, from the iterator
position on.  `dataopt` is `MPTCP_DATAOPTION_SIZE` (a constant of `mptcp.h`).
The first entry passing both tests gets the header fields, has `sentseq`
overwritten, adds the option size and ends the loop (`break`). -/
def sendpacket_scan (dataopt seqno : Int) (tcph : hdr_tcp) (optsize : Int) :
    List dsn_mapping → DsnScan
  | [] => { maps := [], tcph := tcph, optsize := optsize }
  | p :: rest =>
    if seqno ≥ p.sseqnum ∧ seqno < p.sseqnum + p.length then
      if p.sentseq = 0 ∨ p.sentseq = seqno then
        { maps := { p with sentseq := seqno } :: rest,
          tcph := { mp_dsn := p.dseqnum, mp_subseq := p.sseqnum, mp_dsnlen := p.length },
          optsize := optsize + dataopt }
      else
        let r := sendpacket_scan dataopt seqno tcph optsize rest
        { r with maps := p :: r.maps }
    else
      let r := sendpacket_scan dataopt seqno tcph optsize rest
      { r with maps := p :: r.maps }

/-- Lines 206-230 of `sendpacket`: the mapping block, guarded by
`datalen && !mptcp_dsnmap_.empty ()`.  It works on the agent and on the TCP
header of the packet being built. -/
def sendpacket_mapping (dataopt seqno datalen : Int) (a : MpFullTcpAgent) (tcph : hdr_tcp) :
    MpFullTcpAgent × hdr_tcp :=
  if datalen ≠ 0 ∧ ¬ a.mptcp_dsnmap_.isEmpty then
    let r := sendpacket_scan dataopt seqno tcph a.mptcp_option_size_ a.mptcp_dsnmap_
    ({ a with mptcp_dsnmap_ := r.maps, mptcp_option_size_ := r.optsize }, r.tcph)
  else
    (a, tcph)

/-! ## Mapping tables -/

/-- `mptcp_add_mapping (dseqnum, length)`: the subflow sequence is
`(int) curseq_ + 1`, the new entry goes to the back of `mptcp_dsnmap_`. -/
def mptcp_add_mapping (dseqnum length : Int) (a : MpFullTcpAgent) : MpFullTcpAgent :=
  let sseqnum := a.curseq_ + 1
  let tmp_map := dsn_mapping.create dseqnum sseqnum length
  { a with mptcp_dsnmap_ := a.mptcp_dsnmap_ ++ [tmp_map] }

/-- `mptcp_recv_add_mapping (dseqnum, sseqnum, length)`: the new entry goes to
the back of `mptcp_recv_dsnmap_`. -/
def mptcp_recv_add_mapping (dseqnum sseqnum length : Int) (a : MpFullTcpAgent) :
    MpFullTcpAgent :=
  let tmp_map := dsn_mapping.create dseqnum sseqnum length
  { a with mptcp_recv_dsnmap_ := a.mptcp_recv_dsnmap_ ++ [tmp_map] }

/-- A run of `mptcp_add_mapping` calls; each item is the value of the write
cursor `curseq_` at the time of the call, then the two arguments
`(dseqnum, length)`.  The base agent moves the cursor between the calls. -/
def attach_all : List (Int × Int × Int) → MpFullTcpAgent → MpFullTcpAgent
  | [], a => a
  | (cur, dseqnum, length) :: rest, a =>
    attach_all rest (mptcp_add_mapping dseqnum length { a with curseq_ := cur })

/-! ## `mptcp_recv_getack`: from a subflow ack number to the data-level ack -/

/-- The two members of `MptcpAgent` (the object behind `mptcp_core_`) called
by `mptcp_recv_getack`.  `mptcp.cc` is not part of the sources, so both are
parameters acting on an arbitrary state `σ` of that object. -/
structure MptcpAgent (σ : Type) where
  set_dataack : σ → Int → Int → σ
  get_dataack : σ → Int × σ

/-- A call made on `mptcp_core_`, for the log of calls of one invocation. -/
inductive CoreCall where
  | set_dataack (ackno : Int) (length : Int)
  | get_dataack
deriving DecidableEq, Repr

/-- Outcome of `mptcp_recv_getack`.  `ret = none` is the branch that prints
"fatal. no mapping info was found" and calls `abort ()`; `maps` is
`mptcp_recv_dsnmap_` from the iterator on; `calls` lists the calls made on
`mptcp_core_`, oldest first. -/
structure Getack (σ : Type) where
  ret : Option Int
  maps : List dsn_mapping
  core : σ
  calls : List CoreCall

/-- The `while` loop of `mptcp_recv_getack` (lines 293-308) from the iterator
position on, with the `abort ()` after it.  A covering entry ends the call; an
entry that ends below `ackno` is erased and the iterator stays; any other
entry is stepped over. -/
def mptcp_recv_getack_loop {σ : Type} (C : MptcpAgent σ) (ackno : Int) (core : σ) :
    List dsn_mapping → Getack σ
  | [] => { ret := none, maps := [], core := core, calls := [] }
  | p :: rest =>
    if ackno ≥ p.sseqnum ∧ ackno ≤ p.sseqnum + p.length then
      let offset := ackno - p.sseqnum
      let core1 := C.set_dataack core p.dseqnum offset
      let g := C.get_dataack core1
      { ret := some g.1, maps := p :: rest, core := g.2,
        calls := [CoreCall.set_dataack p.dseqnum offset, CoreCall.get_dataack] }
    else if ackno > p.sseqnum + p.length then
      mptcp_recv_getack_loop C ackno core rest
    else
      let r := mptcp_recv_getack_loop C ackno core rest
      { r with maps := p :: r.maps }

/-- Result of `mptcp_recv_getack`: the returned value (`none` for the abort
branch), the agent, the state of the core object and the calls made on it. -/
structure GetackResult (σ : Type) where
  ret : Option Int
  agent : MpFullTcpAgent
  core : σ
  calls : List CoreCall

/-- `mptcp_recv_getack (ackno)`. -/
def mptcp_recv_getack {σ : Type} (C : MptcpAgent σ) (ackno : Int) (a : MpFullTcpAgent)
    (core : σ) : GetackResult σ :=
  if ackno = 1 then
    { ret := some 0, agent := a, core := core, calls := [] }
  else
    let r := mptcp_recv_getack_loop C ackno core a.mptcp_recv_dsnmap_
    { ret := r.ret, agent := { a with mptcp_recv_dsnmap_ := r.maps },
      core := r.core, calls := r.calls }

/-! ## `opencwnd`: linked increase of the congestion window -/

/-- The conversion `int (cwnd_)` of a `double`: truncation toward zero. -/
def int_of_double (x : ℚ) : Int :=
  if 0 ≤ x then ⌊x⌋ else ⌈x⌉

/-- The value of the local `increment` of `opencwnd` when it is added to
`cwnd_` (lines 368-380).  `alpha` and `totalcwnd` are the values returned by
`mptcp_core_->get_alpha ()` and `get_totalcwnd ()`; `limited_slow_start` is
the member of the base TCP agent and `timeout` is `CWND_ACTION_TIMEOUT`, both
from outside the sources.  The constant `0.1` is the rational 1/10: no
`double` lies strictly between 1/10 and the `double` nearest to it, so both
give the same test on every `double`. -/
def opencwnd_increment (limited_slow_start : ℚ → Int → ℚ → ℚ) (timeout : Int)
    (alpha totalcwnd : ℚ) (a : MpFullTcpAgent) : ℚ :=
  let increment : ℚ :=
    if totalcwnd > 1 / 10 then
      min (alpha * a.mptcp_byte_acked_ / totalcwnd) (a.mptcp_byte_acked_ / a.cwnd_)
    else
      a.increase_num_ / a.cwnd_
  if (a.last_cwnd_action_ = 0 ∨ a.last_cwnd_action_ = timeout) ∧ a.max_ssthresh_ > 0 then
    limited_slow_start a.cwnd_ a.max_ssthresh_ increment
  else
    increment

/-- `opencwnd ()`. -/
def opencwnd (limited_slow_start : ℚ → Int → ℚ → ℚ) (timeout : Int)
    (alpha totalcwnd : ℚ) (a : MpFullTcpAgent) : MpFullTcpAgent :=
  let cwnd1 : ℚ :=
    if a.cwnd_ < (a.ssthresh_ : ℚ) ∧ a.mptcp_allow_slowstart_ ≠ 0 then
      a.cwnd_ + 1
    else
      a.cwnd_ + opencwnd_increment limited_slow_start timeout alpha totalcwnd a
  let cwnd2 : ℚ :=
    if a.maxcwnd_ ≠ 0 ∧ int_of_double cwnd1 > a.maxcwnd_ then (a.maxcwnd_ : ℚ) else cwnd1
  { a with cwnd_ := cwnd2, mptcp_byte_acked_ := 0 }

/-! ## `mptcp_remove_mapping`: retiring an outbound mapping -/

/-- The `for` loop of `mptcp_remove_mapping` (lines 317-324) from the iterator
position on: the first entry with `seqnum > dseqnum + length` is erased and the
function returns at once. -/
def mptcp_remove_mapping_loop (seqnum : Int) : List dsn_mapping → List dsn_mapping
  | [] => []
  | p :: rest =>
    if seqnum > p.dseqnum + p.length then
      rest
    else
      p :: mptcp_remove_mapping_loop seqnum rest

/-- `mptcp_remove_mapping (seqnum)`. -/
def mptcp_remove_mapping (seqnum : Int) (a : MpFullTcpAgent) : MpFullTcpAgent :=
  { a with mptcp_dsnmap_ := mptcp_remove_mapping_loop seqnum a.mptcp_dsnmap_ }

/-- Two outbound mappings, (1000, 100, 500) and (1500, 600, 500), both sent. -/
def twoMapAgent : MpFullTcpAgent :=
  { blankAgent with
    mptcp_dsnmap_ := [{ sseqnum := 100, dseqnum := 1000, length := 500, sentseq := 100 },
                      { sseqnum := 600, dseqnum := 1500, length := 500, sentseq := 600 }],
    curseq_ := 1099 }

/-! ## `mptcp_set_byteacked`: bytes newly acknowledged, in segments -/

/-- `mptcp_set_byteacked (pkt)`.  `sq_minseq` and `sq_total` are the values of
`sq_.minseq ()` and `sq_.total ()` of the SACK queue of the base agent during
the call.  `divide` is the division of `mptcp_byte_acked_ /= maxseg_`: the
member is declared in `mptcp-full.h`, which is not among the sources, so the
division of its type (exact for a `double`, truncating for an `int`) is a
parameter.  The value divided is an `int` in every branch. -/
def mptcp_set_byteacked (divide : Int → Int → ℚ) (sq_minseq sq_total : Int)
    (a : MpFullTcpAgent) : MpFullTcpAgent :=
  let byte_acked0 : Int := 0
  let minseq_ := sq_minseq
  let byte_acked1 : Int :=
    if minseq_ < 0 then
      byte_acked0 + (a.highest_ack_ - a.mptcp_prev_ackno_ - a.mptcp_prev_sqtotal_)
    else if sq_minseq > a.mptcp_prev_sqminseq_ ∧ a.mptcp_prev_sqminseq_ > 0 then
      sq_minseq - a.mptcp_prev_sqminseq_
    else
      sq_total - a.mptcp_prev_sqtotal_
  { a with
    mptcp_prev_sqtotal_ := sq_total,
    mptcp_prev_sqminseq_ := sq_minseq,
    mptcp_prev_ackno_ := a.highest_ack_,
    mptcp_byte_acked_ := divide byte_acked1 a.maxseg_ }

/-- The spec's example right after the attach: `mptcp_add_mapping (1000, 500)`
was called at write cursor 99 and the base agent has not moved the cursor
yet. -/
def attachedAgent : MpFullTcpAgent :=
  mptcp_add_mapping 1000 500 { blankAgent with curseq_ := 99 }

/-- A core object that keeps the sum `ackno + length` of the last report and
hands it back, for the concrete instances below. -/
def sumCore : MptcpAgent Int :=
  { set_dataack := fun _ ackno length => ackno + length, get_dataack := fun s => (s, s) }

/-- Two contiguous inbound mappings, (10, 1, 100) and (110, 101, 50). -/
def inboundAgent : MpFullTcpAgent :=
  { blankAgent with
    mptcp_recv_dsnmap_ := [{ sseqnum := 1, dseqnum := 10, length := 100, sentseq := 0 },
                           { sseqnum := 101, dseqnum := 110, length := 50, sentseq := 0 }] }

/-- Two inbound mappings in subflow-sequence order with overlapping ranges,
(10, 1, 100) and (60, 50, 100). -/
def overlapAgent : MpFullTcpAgent :=
  { blankAgent with
    mptcp_recv_dsnmap_ := [{ sseqnum := 1, dseqnum := 10, length := 100, sentseq := 0 },
                           { sseqnum := 50, dseqnum := 60, length := 100, sentseq := 0 }] }

/-! ## Helper lemmas: `sendpacket` -/

theorem sendpacket_scan_none (dataopt seqno : Int) (tcph : hdr_tcp) (optsize : Int)
    (l : List dsn_mapping)
    (h : ∀ x ∈ l, ¬ (x.sseqnum ≤ seqno ∧ seqno < x.sseqnum + x.length ∧
      (x.sentseq = 0 ∨ x.sentseq = seqno))) :
    sendpacket_scan dataopt seqno tcph optsize l
      = { maps := l, tcph := tcph, optsize := optsize } := by
  induction l with
  | nil => rfl
  | cons p rest ih =>
    have hp := h p (List.mem_cons_self _ _)
    have hrest := ih (fun x hx => h x (List.mem_cons_of_mem _ hx))
    unfold sendpacket_scan
    by_cases hc : seqno ≥ p.sseqnum ∧ seqno < p.sseqnum + p.length
    · have hs : ¬ (p.sentseq = 0 ∨ p.sentseq = seqno) := fun hs => hp ⟨hc.1, hc.2, hs⟩
      simp only [hc, hs, and_self, if_true, if_false, hrest]
    · simp only [hc, if_false, hrest]

theorem sendpacket_scan_hit (dataopt seqno : Int) (tcph : hdr_tcp) (optsize : Int)
    (pre : List dsn_mapping) (m : dsn_mapping) (post : List dsn_mapping)
    (hpre : ∀ x ∈ pre, ¬ (x.sseqnum ≤ seqno ∧ seqno < x.sseqnum + x.length ∧
      (x.sentseq = 0 ∨ x.sentseq = seqno)))
    (hm : m.sseqnum ≤ seqno ∧ seqno < m.sseqnum + m.length ∧
      (m.sentseq = 0 ∨ m.sentseq = seqno)) :
    sendpacket_scan dataopt seqno tcph optsize (pre ++ m :: post)
      = { maps := pre ++ { m with sentseq := seqno } :: post,
          tcph := { mp_dsn := m.dseqnum, mp_subseq := m.sseqnum, mp_dsnlen := m.length },
          optsize := optsize + dataopt } := by
  induction pre with
  | nil =>
    have hc : seqno ≥ m.sseqnum ∧ seqno < m.sseqnum + m.length := ⟨hm.1, hm.2.1⟩
    simp only [List.nil_append, sendpacket_scan, hc, hm.2.2, and_self, if_true]
  | cons p rest ih =>
    have hp := hpre p (List.mem_cons_self _ _)
    have hrest := ih (fun x hx => hpre x (List.mem_cons_of_mem _ hx))
    rw [List.cons_append]
    unfold sendpacket_scan
    by_cases hc : seqno ≥ p.sseqnum ∧ seqno < p.sseqnum + p.length
    · have hs : ¬ (p.sentseq = 0 ∨ p.sentseq = seqno) := fun hs => hp ⟨hc.1, hc.2, hs⟩
      simp only [hc, hs, and_self, if_true, if_false, hrest, List.cons_append]
    · simp only [hc, if_false, hrest, List.cons_append]

theorem sendpacket_mapping_first_match_aux (dataopt seq datalen : Int) (a : MpFullTcpAgent)
    (tcph : hdr_tcp) (hd : datalen ≠ 0)
    (pre : List dsn_mapping) (m : dsn_mapping) (post : List dsn_mapping)
    (hl : a.mptcp_dsnmap_ = pre ++ m :: post)
    (hpre : ∀ x ∈ pre, ¬ (x.sseqnum ≤ seq ∧ seq < x.sseqnum + x.length ∧
      (x.sentseq = 0 ∨ x.sentseq = seq)))
    (hm : m.sseqnum ≤ seq ∧ seq < m.sseqnum + m.length ∧ (m.sentseq = 0 ∨ m.sentseq = seq)) :
    sendpacket_mapping dataopt seq datalen a tcph =
      ({ a with mptcp_dsnmap_ := pre ++ { m with sentseq := seq } :: post,
                mptcp_option_size_ := a.mptcp_option_size_ + dataopt },
       { mp_dsn := m.dseqnum, mp_subseq := m.sseqnum, mp_dsnlen := m.length }) := by
  have hne : ¬ a.mptcp_dsnmap_.isEmpty = true := by
    rw [hl]; cases pre <;> simp
  unfold sendpacket_mapping
  rw [if_pos ⟨hd, hne⟩]
  simp only [hl, sendpacket_scan_hit dataopt seq tcph a.mptcp_option_size_ pre m post hpre hm]

theorem sendpacket_mapping_none_aux (dataopt seq datalen : Int) (a : MpFullTcpAgent)
    (tcph : hdr_tcp)
    (hnone : ∀ x ∈ a.mptcp_dsnmap_, ¬ (x.sseqnum ≤ seq ∧ seq < x.sseqnum + x.length ∧
      (x.sentseq = 0 ∨ x.sentseq = seq))) :
    sendpacket_mapping dataopt seq datalen a tcph = (a, tcph) := by
  unfold sendpacket_mapping
  split
  · simp only [sendpacket_scan_none dataopt seq tcph a.mptcp_option_size_ _ hnone]
  · rfl

/-! ## Helper lemmas: `mptcp_recv_getack` -/

theorem getack_loop_none {σ : Type} (C : MptcpAgent σ) (ackno : Int) (core : σ)
    (l : List dsn_mapping)
    (h : ∀ x ∈ l, ¬ (x.sseqnum ≤ ackno ∧ ackno ≤ x.sseqnum + x.length)) :
    (mptcp_recv_getack_loop C ackno core l).ret = none
      ∧ (mptcp_recv_getack_loop C ackno core l).calls = []
      ∧ (mptcp_recv_getack_loop C ackno core l).core = core := by
  induction l with
  | nil => exact ⟨rfl, rfl, rfl⟩
  | cons p rest ih =>
    have hp := h p (List.mem_cons_self _ _)
    have hrest := ih (fun x hx => h x (List.mem_cons_of_mem _ hx))
    have hc : ¬ (ackno ≥ p.sseqnum ∧ ackno ≤ p.sseqnum + p.length) := hp
    unfold mptcp_recv_getack_loop
    rw [if_neg hc]
    by_cases he : ackno > p.sseqnum + p.length
    · rw [if_pos he]; exact hrest
    · rw [if_neg he]; exact hrest

theorem getack_loop_hit {σ : Type} (C : MptcpAgent σ) (ackno : Int) (core : σ)
    (pre : List dsn_mapping) (m : dsn_mapping) (post : List dsn_mapping)
    (hpre : ∀ x ∈ pre, ¬ (x.sseqnum ≤ ackno ∧ ackno ≤ x.sseqnum + x.length))
    (hm : m.sseqnum ≤ ackno ∧ ackno ≤ m.sseqnum + m.length) :
    (mptcp_recv_getack_loop C ackno core (pre ++ m :: post)).ret
        = some (C.get_dataack (C.set_dataack core m.dseqnum (ackno - m.sseqnum))).1
      ∧ (mptcp_recv_getack_loop C ackno core (pre ++ m :: post)).calls
        = [CoreCall.set_dataack m.dseqnum (ackno - m.sseqnum), CoreCall.get_dataack]
      ∧ (mptcp_recv_getack_loop C ackno core (pre ++ m :: post)).core
        = (C.get_dataack (C.set_dataack core m.dseqnum (ackno - m.sseqnum))).2 := by
  induction pre with
  | nil =>
    have hc : ackno ≥ m.sseqnum ∧ ackno ≤ m.sseqnum + m.length := hm
    rw [List.nil_append]
    unfold mptcp_recv_getack_loop
    rw [if_pos hc]
    exact ⟨rfl, rfl, rfl⟩
  | cons p rest ih =>
    have hp := hpre p (List.mem_cons_self _ _)
    have hrest := ih (fun x hx => hpre x (List.mem_cons_of_mem _ hx))
    have hc : ¬ (ackno ≥ p.sseqnum ∧ ackno ≤ p.sseqnum + p.length) := hp
    rw [List.cons_append]
    unfold mptcp_recv_getack_loop
    rw [if_neg hc]
    by_cases he : ackno > p.sseqnum + p.length
    · rw [if_pos he]; exact hrest
    · rw [if_neg he]; exact hrest

theorem getack_loop_some_of_mem {σ : Type} (C : MptcpAgent σ) (ackno : Int) (core : σ)
    (l : List dsn_mapping)
    (h : ∃ x ∈ l, x.sseqnum ≤ ackno ∧ ackno ≤ x.sseqnum + x.length) :
    ∃ v, (mptcp_recv_getack_loop C ackno core l).ret = some v
      ∧ (mptcp_recv_getack_loop C ackno core l).calls ≠ [] := by
  induction l with
  | nil => obtain ⟨x, hx, _⟩ := h; cases hx
  | cons p rest ih =>
    unfold mptcp_recv_getack_loop
    by_cases hc : ackno ≥ p.sseqnum ∧ ackno ≤ p.sseqnum + p.length
    · rw [if_pos hc]; exact ⟨_, rfl, by simp⟩
    · rw [if_neg hc]
      have hr : ∃ x ∈ rest, x.sseqnum ≤ ackno ∧ ackno ≤ x.sseqnum + x.length := by
        obtain ⟨x, hx, hcov⟩ := h
        rcases List.mem_cons.mp hx with rfl | hx
        · exact absurd hcov hc
        · exact ⟨x, hx, hcov⟩
      by_cases he : ackno > p.sseqnum + p.length
      · rw [if_pos he]; exact ih hr
      · rw [if_neg he]; exact ih hr

/-! ## Helper lemmas: `opencwnd` -/

theorem lt_of_lt_int_of_double (x : ℚ) (n : Int) (h : int_of_double x > n) : (n : ℚ) < x := by
  unfold int_of_double at h
  split at h
  · have h1 : ((n : Int) : ℚ) < ((⌊x⌋ : Int) : ℚ) := by exact_mod_cast h
    exact lt_of_lt_of_le h1 (Int.floor_le x)
  · have h1 : ((n : Int) : ℚ) + 1 ≤ ((⌈x⌉ : Int) : ℚ) := by exact_mod_cast h
    have h2 := Int.ceil_lt_add_one x
    linarith

theorem opencwnd_cwnd_eq (limited_slow_start : ℚ → Int → ℚ → ℚ) (timeout : Int)
    (alpha totalcwnd : ℚ) (a : MpFullTcpAgent) :
    (opencwnd limited_slow_start timeout alpha totalcwnd a).cwnd_ =
      if a.maxcwnd_ ≠ 0 ∧
          int_of_double (if a.cwnd_ < (a.ssthresh_ : ℚ) ∧ a.mptcp_allow_slowstart_ ≠ 0 then
            a.cwnd_ + 1
          else a.cwnd_ + opencwnd_increment limited_slow_start timeout alpha totalcwnd a)
            > a.maxcwnd_ then
        (a.maxcwnd_ : ℚ)
      else if a.cwnd_ < (a.ssthresh_ : ℚ) ∧ a.mptcp_allow_slowstart_ ≠ 0 then a.cwnd_ + 1
      else a.cwnd_ + opencwnd_increment limited_slow_start timeout alpha totalcwnd a := rfl

theorem not_slowstart_of_ca (a : MpFullTcpAgent)
    (hca : (a.ssthresh_ : ℚ) ≤ a.cwnd_ ∨ a.mptcp_allow_slowstart_ = 0) :
    ¬ (a.cwnd_ < (a.ssthresh_ : ℚ) ∧ a.mptcp_allow_slowstart_ ≠ 0) := by
  rintro ⟨h1, h2⟩
  rcases hca with h | h
  · exact absurd h1 (not_lt.mpr h)
  · exact h2 h

/-! ## Helper lemmas: runs of `mptcp_add_mapping` -/

theorem attach_all_dsnmap (calls : List (Int × Int × Int)) (a : MpFullTcpAgent) :
    (attach_all calls a).mptcp_dsnmap_
      = a.mptcp_dsnmap_
        ++ calls.map (fun c => dsn_mapping.create c.2.1 (c.1 + 1) c.2.2) := by
  induction calls generalizing a with
  | nil => simp [attach_all]
  | cons c rest ih =>
    obtain ⟨cur, dseqnum, length⟩ := c
    simp [attach_all, ih, mptcp_add_mapping]

theorem attach_all_unsent (calls : List (Int × Int × Int)) (a : MpFullTcpAgent)
    (h : a.mptcp_dsnmap_ = []) :
    ∀ x ∈ (attach_all calls a).mptcp_dsnmap_, x.sentseq = 0 := by
  intro x hx
  rw [attach_all_dsnmap, h, List.nil_append, List.mem_map] at hx
  obtain ⟨c, _, rfl⟩ := hx
  rfl

theorem first_cover_split (seq : Int) (l : List dsn_mapping)
    (h : ∃ x ∈ l, x.sseqnum ≤ seq ∧ seq < x.sseqnum + x.length) :
    ∃ pre m post, l = pre ++ m :: post
      ∧ (∀ x ∈ pre, ¬ (x.sseqnum ≤ seq ∧ seq < x.sseqnum + x.length))
      ∧ (m.sseqnum ≤ seq ∧ seq < m.sseqnum + m.length) := by
  induction l with
  | nil => obtain ⟨x, hx, _⟩ := h; cases hx
  | cons p rest ih =>
    by_cases hc : p.sseqnum ≤ seq ∧ seq < p.sseqnum + p.length
    · exact ⟨[], p, rest, rfl, (fun _ hx => by cases hx), hc⟩
    · have hr : ∃ x ∈ rest, x.sseqnum ≤ seq ∧ seq < x.sseqnum + x.length := by
        obtain ⟨x, hx, hcov⟩ := h
        rcases List.mem_cons.mp hx with rfl | hx
        · exact absurd hcov hc
        · exact ⟨x, hx, hcov⟩
      obtain ⟨pre, m, post, hl, hpre, hm⟩ := ih hr
      refine ⟨p :: pre, m, post, by rw [hl, List.cons_append], ?_, hm⟩
      intro x hx
      rcases List.mem_cons.mp hx with rfl | hx
      · exact hc
      · exact hpre x hx

/-! ## Helper lemmas: `mptcp_remove_mapping` -/

theorem remove_loop_none (seqnum : Int) (l : List dsn_mapping)
    (h : ∀ x ∈ l, ¬ (seqnum > x.dseqnum + x.length)) :
    mptcp_remove_mapping_loop seqnum l = l := by
  induction l with
  | nil => rfl
  | cons p rest ih =>
    unfold mptcp_remove_mapping_loop
    rw [if_neg (h p (List.mem_cons_self _ _)),
      ih (fun x hx => h x (List.mem_cons_of_mem _ hx))]

theorem remove_loop_hit (seqnum : Int) (pre : List dsn_mapping) (m : dsn_mapping)
    (post : List dsn_mapping)
    (hpre : ∀ x ∈ pre, ¬ (seqnum > x.dseqnum + x.length))
    (hm : seqnum > m.dseqnum + m.length) :
    mptcp_remove_mapping_loop seqnum (pre ++ m :: post) = pre ++ post := by
  induction pre with
  | nil =>
    rw [List.nil_append, List.nil_append]
    unfold mptcp_remove_mapping_loop
    rw [if_pos hm]
  | cons p rest ih =>
    rw [List.cons_append, List.cons_append]
    unfold mptcp_remove_mapping_loop
    rw [if_neg (hpre p (List.mem_cons_self _ _)),
      ih (fun x hx => hpre x (List.mem_cons_of_mem _ hx))]

theorem remove_loop_keeps (seqnum : Int) (l : List dsn_mapping) :
    (mptcp_remove_mapping_loop seqnum l).filter
        (fun x => decide (x.dseqnum + x.length ≥ seqnum))
      = l.filter (fun x => decide (x.dseqnum + x.length ≥ seqnum)) := by
  induction l with
  | nil => rfl
  | cons p rest ih =>
    unfold mptcp_remove_mapping_loop
    by_cases hc : seqnum > p.dseqnum + p.length
    · rw [if_pos hc]
      have hp : ¬ (p.dseqnum + p.length ≥ seqnum) := by omega
      rw [List.filter_cons_of_neg (by simpa using hp)]
    · rw [if_neg hc]
      have hp : p.dseqnum + p.length ≥ seqnum := by omega
      rw [List.filter_cons_of_pos (by simpa using hp),
        List.filter_cons_of_pos (by simpa using hp), ih]

theorem remove_loop_sublist (seqnum : Int) (l : List dsn_mapping) :
    (mptcp_remove_mapping_loop seqnum l).Sublist l := by
  induction l with
  | nil => exact List.Sublist.refl _
  | cons p rest ih =>
    unfold mptcp_remove_mapping_loop
    by_cases hc : seqnum > p.dseqnum + p.length
    · rw [if_pos hc]; exact List.sublist_cons_self p rest
    · rw [if_neg hc]; exact ih.cons₂ p

/-! ## Helper lemmas: what the mapping loop of `sendpacket` keeps -/

theorem first_split {α : Type} (P : α → Prop) (l : List α) :
    (∀ x ∈ l, ¬ P x) ∨
      ∃ pre m post, l = pre ++ m :: post ∧ (∀ x ∈ pre, ¬ P x) ∧ P m := by
  induction l with
  | nil => exact Or.inl (fun _ hx => by cases hx)
  | cons p rest ih =>
    by_cases hp : P p
    · exact Or.inr ⟨[], p, rest, rfl, (fun _ hx => by cases hx), hp⟩
    · rcases ih with hnone | ⟨pre, m, post, hl, hpre, hm⟩
      · left
        intro x hx
        rcases List.mem_cons.mp hx with rfl | hx
        · exact hp
        · exact hnone x hx
      · right
        refine ⟨p :: pre, m, post, by rw [hl, List.cons_append], ?_, hm⟩
        intro x hx
        rcases List.mem_cons.mp hx with rfl | hx
        · exact hp
        · exact hpre x hx

theorem sendpacket_mapping_cases (dataopt seq datalen : Int) (a : MpFullTcpAgent)
    (tcph : hdr_tcp) :
    (sendpacket_mapping dataopt seq datalen a tcph).1.mptcp_dsnmap_ = a.mptcp_dsnmap_
      ∨ ∃ pre m post, a.mptcp_dsnmap_ = pre ++ m :: post
          ∧ (m.sentseq = 0 ∨ m.sentseq = seq)
          ∧ (sendpacket_mapping dataopt seq datalen a tcph).1.mptcp_dsnmap_
              = pre ++ { m with sentseq := seq } :: post := by
  by_cases hd : datalen ≠ 0
  · rcases first_split (fun x : dsn_mapping => x.sseqnum ≤ seq ∧ seq < x.sseqnum + x.length ∧
        (x.sentseq = 0 ∨ x.sentseq = seq)) a.mptcp_dsnmap_ with hnone | ⟨pre, m, post, hl, hpre, hm⟩
    · left
      rw [sendpacket_mapping_none_aux dataopt seq datalen a tcph hnone]
    · right
      refine ⟨pre, m, post, hl, hm.2.2, ?_⟩
      rw [sendpacket_mapping_first_match_aux dataopt seq datalen a tcph hd pre m post hl hpre hm]
  · left
    have h0 : ¬ (datalen ≠ 0 ∧ ¬ a.mptcp_dsnmap_.isEmpty = true) := fun h => hd h.1
    unfold sendpacket_mapping
    rw [if_neg h0]

theorem forall₂_update_one {R : dsn_mapping → dsn_mapping → Prop} (hrefl : ∀ x, R x x)
    (pre : List dsn_mapping) (m m2 : dsn_mapping) (post : List dsn_mapping) (hm : R m m2) :
    List.Forall₂ R (pre ++ m :: post) (pre ++ m2 :: post) := by
  induction pre with
  | nil =>
    exact List.Forall₂.cons hm (List.forall₂_same.mpr (fun x _ => hrefl x))
  | cons p rest ih => exact List.Forall₂.cons (hrefl p) ih

/-! ## Helper lemmas: disjoint subflow-sequence ranges -/

theorem pairwise_ranges_of_forall₂ (l l2 : List dsn_mapping)
    (h : List.Forall₂ (fun x y : dsn_mapping => y.sseqnum = x.sseqnum ∧ y.length = x.length)
      l l2)
    (hp : l.Pairwise (fun x y => x.sseqnum + x.length ≤ y.sseqnum
      ∨ y.sseqnum + y.length ≤ x.sseqnum)) :
    l2.Pairwise (fun x y => x.sseqnum + x.length ≤ y.sseqnum
      ∨ y.sseqnum + y.length ≤ x.sseqnum) := by
  induction h with
  | nil => exact List.Pairwise.nil
  | @cons x y xs ys hxy hrest ih =>
    rw [List.pairwise_cons] at hp ⊢
    refine ⟨?_, ih hp.2⟩
    intro z hz
    obtain ⟨w, hw, hwz⟩ : ∃ w ∈ xs, z.sseqnum = w.sseqnum ∧ z.length = w.length := by
      clear ih hp
      induction hrest with
      | nil => cases hz
      | @cons u v us vs huv _ ih2 =>
        rcases List.mem_cons.mp hz with rfl | hz
        · exact ⟨u, List.mem_cons_self _ _, huv⟩
        · obtain ⟨w, hw, hwz⟩ := ih2 hz
          exact ⟨w, List.mem_cons_of_mem _ hw, hwz⟩
    have := hp.1 w hw
    rw [hxy.1, hxy.2, hwz.1, hwz.2]
    exact this

theorem sendpacket_mapping_ranges (dataopt seq datalen : Int) (a : MpFullTcpAgent)
    (tcph : hdr_tcp) :
    List.Forall₂ (fun x y : dsn_mapping => y.sseqnum = x.sseqnum ∧ y.length = x.length)
      a.mptcp_dsnmap_ (sendpacket_mapping dataopt seq datalen a tcph).1.mptcp_dsnmap_ := by
  have hrefl : ∀ x : dsn_mapping, x.sseqnum = x.sseqnum ∧ x.length = x.length :=
    fun _ => ⟨rfl, rfl⟩
  rcases sendpacket_mapping_cases dataopt seq datalen a tcph with h | ⟨pre, m, post, hl, _, h⟩
  · rw [h]; exact List.forall₂_same.mpr (fun x _ => hrefl x)
  · rw [h, hl]; exact forall₂_update_one hrefl pre m _ post ⟨rfl, rfl⟩

/-! ## Helper lemmas: evictions of `mptcp_recv_getack` -/

theorem getack_loop_maps_hit {σ : Type} (C : MptcpAgent σ) (ackno : Int) (core : σ)
    (pre : List dsn_mapping) (m : dsn_mapping) (post : List dsn_mapping)
    (hpre : ∀ x ∈ pre, ¬ (x.sseqnum ≤ ackno ∧ ackno ≤ x.sseqnum + x.length))
    (hm : m.sseqnum ≤ ackno ∧ ackno ≤ m.sseqnum + m.length) :
    (mptcp_recv_getack_loop C ackno core (pre ++ m :: post)).maps
      = pre.filter (fun x => decide (ackno ≤ x.sseqnum + x.length)) ++ m :: post := by
  induction pre with
  | nil =>
    have hc : ackno ≥ m.sseqnum ∧ ackno ≤ m.sseqnum + m.length := hm
    rw [List.nil_append]
    unfold mptcp_recv_getack_loop
    rw [if_pos hc]
    rfl
  | cons p rest ih =>
    have hp := hpre p (List.mem_cons_self _ _)
    have hrest := ih (fun x hx => hpre x (List.mem_cons_of_mem _ hx))
    have hc : ¬ (ackno ≥ p.sseqnum ∧ ackno ≤ p.sseqnum + p.length) := hp
    rw [List.cons_append]
    unfold mptcp_recv_getack_loop
    rw [if_neg hc]
    by_cases he : ackno > p.sseqnum + p.length
    · rw [if_pos he, hrest]
      have hk : ¬ (ackno ≤ p.sseqnum + p.length) := by omega
      rw [List.filter_cons_of_neg (by simpa using hk)]
    · rw [if_neg he]
      have hk : ackno ≤ p.sseqnum + p.length := by omega
      rw [List.filter_cons_of_pos (by simpa using hk)]
      simp only [hrest, List.cons_append]

theorem getack_loop_maps_sublist {σ : Type} (C : MptcpAgent σ) (ackno : Int) (core : σ)
    (l : List dsn_mapping) :
    (mptcp_recv_getack_loop C ackno core l).maps.Sublist l := by
  induction l with
  | nil => exact List.Sublist.refl _
  | cons p rest ih =>
    unfold mptcp_recv_getack_loop
    by_cases hc : ackno ≥ p.sseqnum ∧ ackno ≤ p.sseqnum + p.length
    · rw [if_pos hc]
    · rw [if_neg hc]
      by_cases he : ackno > p.sseqnum + p.length
      · rw [if_pos he]; exact ih.cons p
      · rw [if_neg he]; exact ih.cons₂ p

theorem getack_loop_maps_keeps {σ : Type} (C : MptcpAgent σ) (ackno : Int) (core : σ)
    (l : List dsn_mapping) :
    (mptcp_recv_getack_loop C ackno core l).maps.filter
        (fun x => decide (ackno ≤ x.sseqnum + x.length))
      = l.filter (fun x => decide (ackno ≤ x.sseqnum + x.length)) := by
  induction l with
  | nil => rfl
  | cons p rest ih =>
    unfold mptcp_recv_getack_loop
    by_cases hc : ackno ≥ p.sseqnum ∧ ackno ≤ p.sseqnum + p.length
    · rw [if_pos hc]
    · rw [if_neg hc]
      by_cases he : ackno > p.sseqnum + p.length
      · rw [if_pos he, ih]
        have hk : ¬ (ackno ≤ p.sseqnum + p.length) := by omega
        rw [List.filter_cons_of_neg (by simpa using hk)]
      · rw [if_neg he]
        have hk : ackno ≤ p.sseqnum + p.length := by omega
        show ((p :: (mptcp_recv_getack_loop C ackno core rest).maps).filter
            (fun x => decide (ackno ≤ x.sseqnum + x.length))) = _
        simp only [List.filter_cons, hk, decide_True, if_true, ih]

theorem getack_maps_eq_loop {σ : Type} (C : MptcpAgent σ) (ackno : Int) (a : MpFullTcpAgent)
    (core : σ) (h : ackno ≠ 1) :
    (mptcp_recv_getack C ackno a core).agent.mptcp_recv_dsnmap_
      = (mptcp_recv_getack_loop C ackno core a.mptcp_recv_dsnmap_).maps := by
  unfold mptcp_recv_getack
  rw [if_neg h]

theorem getack_ret_eq_loop {σ : Type} (C : MptcpAgent σ) (ackno : Int) (a : MpFullTcpAgent)
    (core : σ) (h : ackno ≠ 1) :
    (mptcp_recv_getack C ackno a core).ret
      = (mptcp_recv_getack_loop C ackno core a.mptcp_recv_dsnmap_).ret := by
  unfold mptcp_recv_getack
  rw [if_neg h]

/-! ## Theorems -/

/-- C1: the mapping loop of `sendpacket`, run with non-zero `datalen`, writes
into the header the (data_seq, subflow_seq_start, length) triple of the first
mapping in list order whose range contains `seq` and which is unsent or was
sent at `seq`, sets that mapping's `sentseq` to `seq` (and adds the data-option
size); if no mapping passes both tests, header, option size and outbound list
are unchanged ("no mapping"). -/
theorem sendpacket_mapping_first_match (dataopt seq datalen : Int) (a : MpFullTcpAgent)
    (tcph : hdr_tcp) (hd : datalen ≠ 0) :
    (∀ (pre : List dsn_mapping) (m : dsn_mapping) (post : List dsn_mapping),
      a.mptcp_dsnmap_ = pre ++ m :: post →
      (∀ x ∈ pre, ¬ (x.sseqnum ≤ seq ∧ seq < x.sseqnum + x.length ∧
        (x.sentseq = 0 ∨ x.sentseq = seq))) →
      (m.sseqnum ≤ seq ∧ seq < m.sseqnum + m.length ∧ (m.sentseq = 0 ∨ m.sentseq = seq)) →
      sendpacket_mapping dataopt seq datalen a tcph =
        ({ a with mptcp_dsnmap_ := pre ++ { m with sentseq := seq } :: post,
                  mptcp_option_size_ := a.mptcp_option_size_ + dataopt },
         { mp_dsn := m.dseqnum, mp_subseq := m.sseqnum, mp_dsnlen := m.length }))
    ∧ ((∀ x ∈ a.mptcp_dsnmap_, ¬ (x.sseqnum ≤ seq ∧ seq < x.sseqnum + x.length ∧
        (x.sentseq = 0 ∨ x.sentseq = seq))) →
      sendpacket_mapping dataopt seq datalen a tcph = (a, tcph)) := by
  constructor
  · intro pre m post hl hpre hm
    exact sendpacket_mapping_first_match_aux dataopt seq datalen a tcph hd pre m post hl hpre hm
  · intro hnone
    exact sendpacket_mapping_none_aux dataopt seq datalen a tcph hnone

/-- C1 at the spec's end-to-end example: the mapping (1000, 100, 500), not
yet sent, is selected by a send at 150 and marked as sent at 150. -/
theorem sendpacket_mapping_first_match_witness :
    (100 : Int) ≠ 0 ∧
    sendpacket_mapping 20 150 100
        { blankAgent with mptcp_dsnmap_ := [{ sseqnum := 100, dseqnum := 1000, length := 500, sentseq := 0 }] }
        { mp_dsn := 0, mp_subseq := 0, mp_dsnlen := 0 }
      = ({ blankAgent with
            mptcp_dsnmap_ := [{ sseqnum := 100, dseqnum := 1000, length := 500, sentseq := 150 }],
            mptcp_option_size_ := 20 },
         { mp_dsn := 1000, mp_subseq := 100, mp_dsnlen := 500 }) :=
  ⟨by decide,
   (sendpacket_mapping_first_match 20 150 100
      { blankAgent with mptcp_dsnmap_ := [{ sseqnum := 100, dseqnum := 1000, length := 500, sentseq := 0 }] }
      { mp_dsn := 0, mp_subseq := 0, mp_dsnlen := 0 } (by decide)).1
      [] { sseqnum := 100, dseqnum := 1000, length := 500, sentseq := 0 } [] rfl
      (fun _ hx => by cases hx) (by decide)⟩

/-- C2: for an ack number other than 1 covered (upper bound included) by some
inbound mapping, with `m` the first such mapping in list order,
`mptcp_recv_getack` makes exactly the calls `set_dataack (m.dseqnum,
ack - m.sseqnum)` and then `get_dataack ()` on the core, and returns what that
`get_dataack` yields. -/
theorem mptcp_recv_getack_first_cover {σ : Type} (C : MptcpAgent σ) (ack : Int)
    (a : MpFullTcpAgent) (core : σ) (pre : List dsn_mapping) (m : dsn_mapping)
    (post : List dsn_mapping) (hack : ack ≠ 1)
    (hl : a.mptcp_recv_dsnmap_ = pre ++ m :: post)
    (hpre : ∀ x ∈ pre, ¬ (x.sseqnum ≤ ack ∧ ack ≤ x.sseqnum + x.length))
    (hm : m.sseqnum ≤ ack ∧ ack ≤ m.sseqnum + m.length) :
    (mptcp_recv_getack C ack a core).calls
        = [CoreCall.set_dataack m.dseqnum (ack - m.sseqnum), CoreCall.get_dataack]
      ∧ (mptcp_recv_getack C ack a core).ret
        = some (C.get_dataack (C.set_dataack core m.dseqnum (ack - m.sseqnum))).1
      ∧ (mptcp_recv_getack C ack a core).core
        = (C.get_dataack (C.set_dataack core m.dseqnum (ack - m.sseqnum))).2 := by
  have h := getack_loop_hit C ack core pre m post hpre hm
  unfold mptcp_recv_getack
  rw [if_neg hack, hl]
  exact ⟨h.2.1, h.1, h.2.2⟩

/-- C2 on a concrete core that keeps the sum `ackno + length` of the last
report: with inbound mappings (10, 1, 100) and (110, 101, 50), ack 121 is
covered by the second one, so (110, 20) is reported and 130 comes back. -/
theorem mptcp_recv_getack_first_cover_witness :
    (121 : Int) ≠ 1 ∧
    (mptcp_recv_getack
        { set_dataack := fun (_ : Int) d off => d + off, get_dataack := fun s => (s, s) }
        121
        { blankAgent with mptcp_recv_dsnmap_ :=
            [{ sseqnum := 1, dseqnum := 10, length := 100, sentseq := 0 },
             { sseqnum := 101, dseqnum := 110, length := 50, sentseq := 0 }] }
        0).calls = [CoreCall.set_dataack 110 (121 - 101), CoreCall.get_dataack] :=
  ⟨by decide,
   (mptcp_recv_getack_first_cover
      { set_dataack := fun (_ : Int) d off => d + off, get_dataack := fun s => (s, s) }
      121
      { blankAgent with mptcp_recv_dsnmap_ :=
          [{ sseqnum := 1, dseqnum := 10, length := 100, sentseq := 0 },
           { sseqnum := 101, dseqnum := 110, length := 50, sentseq := 0 }] }
      0
      [{ sseqnum := 1, dseqnum := 10, length := 100, sentseq := 0 }]
      { sseqnum := 101, dseqnum := 110, length := 50, sentseq := 0 } []
      (by decide) rfl (by decide) (by decide)).1⟩

/-- C3: `mptcp_recv_getack` ends in the abort branch exactly when the ack
number is not 1 and no inbound mapping covers it (upper bound included); then
no value is returned and no call is made on the core.  Whenever some mapping
of the list covers the ack number the call returns a value. -/
theorem mptcp_recv_getack_abort_iff {σ : Type} (C : MptcpAgent σ) (ack : Int)
    (a : MpFullTcpAgent) (core : σ) :
    ((mptcp_recv_getack C ack a core).ret = none ↔
        (ack ≠ 1 ∧ ∀ m ∈ a.mptcp_recv_dsnmap_,
          ¬ (m.sseqnum ≤ ack ∧ ack ≤ m.sseqnum + m.length)))
      ∧ ((mptcp_recv_getack C ack a core).ret = none →
          (mptcp_recv_getack C ack a core).calls = []
            ∧ (mptcp_recv_getack C ack a core).core = core)
      ∧ ((∃ m ∈ a.mptcp_recv_dsnmap_, m.sseqnum ≤ ack ∧ ack ≤ m.sseqnum + m.length) →
          ∃ v, (mptcp_recv_getack C ack a core).ret = some v) := by
  have key : (mptcp_recv_getack C ack a core).ret = none ↔
      (ack ≠ 1 ∧ ∀ m ∈ a.mptcp_recv_dsnmap_,
        ¬ (m.sseqnum ≤ ack ∧ ack ≤ m.sseqnum + m.length)) := by
    unfold mptcp_recv_getack
    by_cases h1 : ack = 1
    · rw [if_pos h1]; simp [h1]
    · rw [if_neg h1]
      constructor
      · intro hret
        refine ⟨h1, fun m hmem hcov => ?_⟩
        obtain ⟨v, hv, _⟩ :=
          getack_loop_some_of_mem C ack core a.mptcp_recv_dsnmap_ ⟨m, hmem, hcov⟩
        simp only [hv] at hret
        cases hret
      · intro h
        exact (getack_loop_none C ack core a.mptcp_recv_dsnmap_ h.2).1
  refine ⟨key, ?_, ?_⟩
  · intro hret
    have h := key.mp hret
    have hn := getack_loop_none C ack core a.mptcp_recv_dsnmap_ h.2
    unfold mptcp_recv_getack
    rw [if_neg h.1]
    exact ⟨hn.2.1, hn.2.2⟩
  · intro hex
    by_cases h1 : ack = 1
    · refine ⟨0, ?_⟩
      unfold mptcp_recv_getack
      rw [if_pos h1]
    · obtain ⟨v, hv, _⟩ := getack_loop_some_of_mem C ack core a.mptcp_recv_dsnmap_ hex
      refine ⟨v, ?_⟩
      unfold mptcp_recv_getack
      rw [if_neg h1]
      exact hv

/-- C3 on a concrete state: with inbound mappings (10, 1, 100) and
(110, 101, 50), ack 200 is covered by neither, the call ends in the abort
branch and makes no call on the core. -/
theorem mptcp_recv_getack_abort_iff_witness :
    (mptcp_recv_getack
        { set_dataack := fun (_ : Int) d off => d + off, get_dataack := fun s => (s, s) }
        200
        { blankAgent with mptcp_recv_dsnmap_ :=
            [{ sseqnum := 1, dseqnum := 10, length := 100, sentseq := 0 },
             { sseqnum := 101, dseqnum := 110, length := 50, sentseq := 0 }] }
        0).ret = none :=
  (mptcp_recv_getack_abort_iff
      { set_dataack := fun (_ : Int) d off => d + off, get_dataack := fun s => (s, s) }
      200
      { blankAgent with mptcp_recv_dsnmap_ :=
          [{ sseqnum := 1, dseqnum := 10, length := 100, sentseq := 0 },
           { sseqnum := 101, dseqnum := 110, length := 50, sentseq := 0 }] }
      0).1.mpr ⟨by decide, by decide⟩

/-- C4: in the congestion-avoidance branch of `opencwnd`, with limited slow
start not applying and no window cap (`maxcwnd_ = 0`), in exact arithmetic:
if `totalcwnd > 0.1` the new window is
`cwnd + min (alpha * byte_acked / totalcwnd, byte_acked / cwnd)`, otherwise it
is `cwnd + increase_num / cwnd`. -/
theorem opencwnd_congestion_avoidance (limited_slow_start : ℚ → Int → ℚ → ℚ)
    (timeout : Int) (alpha totalcwnd : ℚ) (a : MpFullTcpAgent)
    (hca : (a.ssthresh_ : ℚ) ≤ a.cwnd_ ∨ a.mptcp_allow_slowstart_ = 0)
    (hlss : ¬ ((a.last_cwnd_action_ = 0 ∨ a.last_cwnd_action_ = timeout)
      ∧ a.max_ssthresh_ > 0))
    (hmax : a.maxcwnd_ = 0) :
    (totalcwnd > 1 / 10 →
      (opencwnd limited_slow_start timeout alpha totalcwnd a).cwnd_
        = a.cwnd_ + min (alpha * a.mptcp_byte_acked_ / totalcwnd)
            (a.mptcp_byte_acked_ / a.cwnd_))
    ∧ (¬ totalcwnd > 1 / 10 →
      (opencwnd limited_slow_start timeout alpha totalcwnd a).cwnd_
        = a.cwnd_ + a.increase_num_ / a.cwnd_) := by
  have hss := not_slowstart_of_ca a hca
  have hclamp : ¬ (a.maxcwnd_ ≠ 0 ∧
      int_of_double (a.cwnd_ + opencwnd_increment limited_slow_start timeout alpha totalcwnd a)
        > a.maxcwnd_) := fun h => h.1 hmax
  rw [opencwnd_cwnd_eq, if_neg hss, if_neg hclamp]
  unfold opencwnd_increment
  simp only [if_neg hlss]
  constructor
  · intro ht; rw [if_pos ht]
  · intro ht; rw [if_neg ht]

/-- C4 at the spec's example: `cwnd = 20`, `ssthresh = 10`, `totalcwnd = 100`,
`alpha = 2`, `byte_acked = 4` give `cwnd = 20.08`. -/
theorem opencwnd_congestion_avoidance_witness :
    (opencwnd (fun _ _ i => i) 2 2 100
      { blankAgent with cwnd_ := 20, ssthresh_ := 10, mptcp_byte_acked_ := 4 }).cwnd_
      = 2008 / 100 :=
  ((opencwnd_congestion_avoidance (fun _ _ i => i) 2 2 100
      { blankAgent with cwnd_ := 20, ssthresh_ := 10, mptcp_byte_acked_ := 4 }
      (Or.inl (by norm_num)) (by simp [blankAgent]) rfl).1 (by norm_num)).trans
    (by norm_num)

/-- C5: in the congestion-avoidance branch with `totalcwnd > 0.1`, a positive
window and limited slow start not applied, one call of `opencwnd` grows the
window by at most `byte_acked / cwnd`, for every `alpha` and `byte_acked` and
whether or not the `maxcwnd_` clamp fires. -/
theorem opencwnd_growth_le_single_path (limited_slow_start : ℚ → Int → ℚ → ℚ)
    (timeout : Int) (alpha totalcwnd : ℚ) (a : MpFullTcpAgent)
    (hca : (a.ssthresh_ : ℚ) ≤ a.cwnd_ ∨ a.mptcp_allow_slowstart_ = 0)
    (htot : totalcwnd > 1 / 10) (_hcw : 0 < a.cwnd_)
    (hlss : ¬ ((a.last_cwnd_action_ = 0 ∨ a.last_cwnd_action_ = timeout)
      ∧ a.max_ssthresh_ > 0)) :
    (opencwnd limited_slow_start timeout alpha totalcwnd a).cwnd_ - a.cwnd_
      ≤ a.mptcp_byte_acked_ / a.cwnd_ := by
  have hss := not_slowstart_of_ca a hca
  have hinc : opencwnd_increment limited_slow_start timeout alpha totalcwnd a
      = min (alpha * a.mptcp_byte_acked_ / totalcwnd) (a.mptcp_byte_acked_ / a.cwnd_) := by
    unfold opencwnd_increment
    simp only [if_neg hlss, if_pos htot]
  have hle : opencwnd_increment limited_slow_start timeout alpha totalcwnd a
      ≤ a.mptcp_byte_acked_ / a.cwnd_ := by
    rw [hinc]; exact min_le_right _ _
  rw [opencwnd_cwnd_eq, if_neg hss]
  split
  · rename_i hclamp
    have := lt_of_lt_int_of_double _ _ hclamp.2
    linarith
  · linarith

/-- C5 on a concrete state where the clamp fires: `cwnd = 20`, `maxcwnd = 10`,
`byte_acked = 4`, `alpha = 2`, `totalcwnd = 100`. -/
theorem opencwnd_growth_le_single_path_witness :
    (opencwnd (fun _ _ i => i) 2 2 100
        { blankAgent with cwnd_ := 20, ssthresh_ := 10, mptcp_byte_acked_ := 4,
                          maxcwnd_ := 10 }).cwnd_
      - ({ blankAgent with cwnd_ := 20, ssthresh_ := 10, mptcp_byte_acked_ := 4,
                           maxcwnd_ := 10 } : MpFullTcpAgent).cwnd_
      ≤ ({ blankAgent with cwnd_ := 20, ssthresh_ := 10, mptcp_byte_acked_ := 4,
                           maxcwnd_ := 10 } : MpFullTcpAgent).mptcp_byte_acked_
        / ({ blankAgent with cwnd_ := 20, ssthresh_ := 10, mptcp_byte_acked_ := 4,
                             maxcwnd_ := 10 } : MpFullTcpAgent).cwnd_ :=
  opencwnd_growth_le_single_path (fun _ _ i => i) 2 2 100
    { blankAgent with cwnd_ := 20, ssthresh_ := 10, mptcp_byte_acked_ := 4, maxcwnd_ := 10 }
    (Or.inl (by norm_num)) (by norm_num) (by norm_num) (by simp [blankAgent])

/-- C7: in slow start (`cwnd < ssthresh` and `mptcp_allow_slowstart_`
non-zero) with no window cap (`maxcwnd_ = 0`), one call of `opencwnd` yields
exactly `cwnd + 1`, whatever `alpha`, `totalcwnd` and `byte_acked` are. -/
theorem opencwnd_slow_start (limited_slow_start : ℚ → Int → ℚ → ℚ)
    (timeout : Int) (alpha totalcwnd : ℚ) (a : MpFullTcpAgent)
    (hss : a.cwnd_ < (a.ssthresh_ : ℚ)) (hallow : a.mptcp_allow_slowstart_ ≠ 0)
    (hmax : a.maxcwnd_ = 0) :
    (opencwnd limited_slow_start timeout alpha totalcwnd a).cwnd_ = a.cwnd_ + 1 := by
  have hslow : a.cwnd_ < (a.ssthresh_ : ℚ) ∧ a.mptcp_allow_slowstart_ ≠ 0 := ⟨hss, hallow⟩
  have hclamp : ¬ (a.maxcwnd_ ≠ 0 ∧ int_of_double (a.cwnd_ + 1) > a.maxcwnd_) :=
    fun h => h.1 hmax
  rw [opencwnd_cwnd_eq, if_pos hslow, if_neg hclamp]

/-- C7 at the spec's example: `cwnd = 5`, `ssthresh = 10` give `cwnd = 6`. -/
theorem opencwnd_slow_start_witness :
    (opencwnd (fun _ _ i => i) 2 2 100
      { blankAgent with cwnd_ := 5, ssthresh_ := 10 }).cwnd_ = 6 :=
  (opencwnd_slow_start (fun _ _ i => i) 2 2 100
      { blankAgent with cwnd_ := 5, ssthresh_ := 10 }
      (by norm_num) (by simp [blankAgent]) rfl).trans (by norm_num)

/-- C6, as stated, fails: in congestion avoidance with `cwnd = 25`,
`maxcwnd = 25`, `totalcwnd = 100`, `alpha = 2`, `byte_acked = 4` the computed
window `25 + 0.08` exceeds the cap, yet the call leaves `cwnd = 25.08`, not
25, because the test compares `int (cwnd_)` with `maxcwnd_`. -/
theorem opencwnd_clamp_counterexample :
    clampAgent.maxcwnd_ ≠ 0
    ∧ ¬ (clampAgent.cwnd_ < (clampAgent.ssthresh_ : ℚ) ∧ clampAgent.mptcp_allow_slowstart_ ≠ 0)
    ∧ (clampAgent.maxcwnd_ : ℚ)
        < clampAgent.cwnd_ + opencwnd_increment (fun _ _ i => i) 2 2 100 clampAgent
    ∧ (opencwnd (fun _ _ i => i) 2 2 100 clampAgent).cwnd_ = 2508 / 100
    ∧ (opencwnd (fun _ _ i => i) 2 2 100 clampAgent).cwnd_ ≠ (clampAgent.maxcwnd_ : ℚ) := by
  have hss : ¬ (clampAgent.cwnd_ < (clampAgent.ssthresh_ : ℚ)
      ∧ clampAgent.mptcp_allow_slowstart_ ≠ 0) := by
    simp only [clampAgent, blankAgent]; norm_num
  have hinc : opencwnd_increment (fun _ _ i => i) 2 2 100 clampAgent = 8 / 100 := by
    simp only [opencwnd_increment, clampAgent, blankAgent]
    norm_num
  have hcw : clampAgent.cwnd_ = 25 := rfl
  have hmx : clampAgent.maxcwnd_ = 25 := rfl
  have hfl : int_of_double ((25 : ℚ) + 8 / 100) = 25 := by
    unfold int_of_double
    rw [if_pos (by norm_num)]
    rw [Int.floor_eq_iff]
    constructor <;> norm_num
  have hres : (opencwnd (fun _ _ i => i) 2 2 100 clampAgent).cwnd_ = 2508 / 100 := by
    rw [opencwnd_cwnd_eq, if_neg hss, hinc, hcw, hmx, hfl]
    norm_num
  refine ⟨by rw [hmx]; decide, hss, ?_, hres, ?_⟩
  · rw [hinc, hcw, hmx]; norm_num
  · rw [hres, hmx]; norm_num

/-- C6 (amended): with a window cap configured (`maxcwnd_` non-zero), if the
integer part `int (...)` of the window computed by the call (`cwnd + 1` in
slow start, `cwnd + increment` otherwise) exceeds `maxcwnd_`, then the
resulting window is exactly `maxcwnd_`. -/
theorem opencwnd_clamp (limited_slow_start : ℚ → Int → ℚ → ℚ)
    (timeout : Int) (alpha totalcwnd : ℚ) (a : MpFullTcpAgent)
    (hmax : a.maxcwnd_ ≠ 0) :
    ((a.cwnd_ < (a.ssthresh_ : ℚ) ∧ a.mptcp_allow_slowstart_ ≠ 0) →
        int_of_double (a.cwnd_ + 1) > a.maxcwnd_ →
        (opencwnd limited_slow_start timeout alpha totalcwnd a).cwnd_ = (a.maxcwnd_ : ℚ))
    ∧ (¬ (a.cwnd_ < (a.ssthresh_ : ℚ) ∧ a.mptcp_allow_slowstart_ ≠ 0) →
        int_of_double
          (a.cwnd_ + opencwnd_increment limited_slow_start timeout alpha totalcwnd a)
          > a.maxcwnd_ →
        (opencwnd limited_slow_start timeout alpha totalcwnd a).cwnd_ = (a.maxcwnd_ : ℚ)) := by
  constructor
  · intro hss hgt
    have hclamp : a.maxcwnd_ ≠ 0 ∧ int_of_double (a.cwnd_ + 1) > a.maxcwnd_ := ⟨hmax, hgt⟩
    rw [opencwnd_cwnd_eq, if_pos hss, if_pos hclamp]
  · intro hss hgt
    have hclamp : a.maxcwnd_ ≠ 0 ∧ int_of_double
        (a.cwnd_ + opencwnd_increment limited_slow_start timeout alpha totalcwnd a)
        > a.maxcwnd_ := ⟨hmax, hgt⟩
    rw [opencwnd_cwnd_eq, if_neg hss, if_pos hclamp]

/-- C6 (amended) at the spec's example: `maxcwnd = 25` and a computed window
of 30 (slow start from 29) give `cwnd = 25`. -/
theorem opencwnd_clamp_witness :
    (opencwnd (fun _ _ i => i) 2 2 100
      { blankAgent with cwnd_ := 29, ssthresh_ := 40, maxcwnd_ := 25 }).cwnd_ = 25 :=
  ((opencwnd_clamp (fun _ _ i => i) 2 2 100
      { blankAgent with cwnd_ := 29, ssthresh_ := 40, maxcwnd_ := 25 }
      (by simp [blankAgent])).1
      ⟨by norm_num, by simp [blankAgent]⟩
      (by
        have h : int_of_double ((29 : ℚ) + 1) = 30 := by
          unfold int_of_double
          rw [if_pos (by norm_num), Int.floor_eq_iff]
          constructor <;> norm_num
        show int_of_double ((29 : ℚ) + 1) > 25
        rw [h]; decide)).trans (by norm_num)

/-- C8: `mptcp_add_mapping (d, n)` leaves the outbound list as the old list
with exactly one mapping appended at the end, namely (data_seq = d,
subflow_seq = curseq + 1, length = n, sentseq = 0); every mapping already in
the list keeps its position and no merge takes place. -/
theorem mptcp_add_mapping_appends (d n : Int) (a : MpFullTcpAgent) :
    (mptcp_add_mapping d n a).mptcp_dsnmap_
        = a.mptcp_dsnmap_
          ++ [{ sseqnum := a.curseq_ + 1, dseqnum := d, length := n, sentseq := 0 }]
      ∧ (mptcp_add_mapping d n a).mptcp_dsnmap_.length = a.mptcp_dsnmap_.length + 1
      ∧ (∀ i, i < a.mptcp_dsnmap_.length →
          (mptcp_add_mapping d n a).mptcp_dsnmap_[i]? = a.mptcp_dsnmap_[i]?) := by
  refine ⟨rfl, ?_, ?_⟩
  · simp [mptcp_add_mapping]
  · intro i hi
    simp only [mptcp_add_mapping]
    exact List.getElem?_append_left hi

/-- C8 at the spec's example: write cursor 99, `d = 1000`, `n = 500` store
(1000, 100, 500), unsent. -/
theorem mptcp_add_mapping_appends_witness :
    (mptcp_add_mapping 1000 500 { blankAgent with curseq_ := 99 }).mptcp_dsnmap_
      = [{ sseqnum := 100, dseqnum := 1000, length := 500, sentseq := 0 }] :=
  (mptcp_add_mapping_appends 1000 500 { blankAgent with curseq_ := 99 }).1

/-- C9: on an outbound list built from the empty list by `mptcp_add_mapping`
calls with increasing write cursors, a send at a `seq` lying inside some
attached range writes into the header the triple of a mapping of the list
whose range contains `seq`; a second send at the same `seq` (fresh header,
option size reset) writes the same triple and leaves the outbound list as the
first send left it. -/
theorem select_after_attach_idempotent (dataopt seq datalen datalen2 opt2 : Int)
    (calls : List (Int × Int × Int)) (a0 : MpFullTcpAgent) (tcph tcph2 : hdr_tcp)
    (hempty : a0.mptcp_dsnmap_ = [])
    (_hinc : (calls.map (fun c => c.1)).Pairwise (fun c1 c2 => c1 < c2))
    (hd : datalen ≠ 0) (hd2 : datalen2 ≠ 0)
    (hin : ∃ m ∈ (attach_all calls a0).mptcp_dsnmap_,
      m.sseqnum ≤ seq ∧ seq < m.sseqnum + m.length) :
    (∃ m ∈ (attach_all calls a0).mptcp_dsnmap_,
        (m.sseqnum ≤ seq ∧ seq < m.sseqnum + m.length)
        ∧ (sendpacket_mapping dataopt seq datalen (attach_all calls a0) tcph).2
          = { mp_dsn := m.dseqnum, mp_subseq := m.sseqnum, mp_dsnlen := m.length })
    ∧ (sendpacket_mapping dataopt seq datalen2
          { (sendpacket_mapping dataopt seq datalen (attach_all calls a0) tcph).1 with
            mptcp_option_size_ := opt2 } tcph2).2
        = (sendpacket_mapping dataopt seq datalen (attach_all calls a0) tcph).2
    ∧ (sendpacket_mapping dataopt seq datalen2
          { (sendpacket_mapping dataopt seq datalen (attach_all calls a0) tcph).1 with
            mptcp_option_size_ := opt2 } tcph2).1.mptcp_dsnmap_
        = (sendpacket_mapping dataopt seq datalen
            (attach_all calls a0) tcph).1.mptcp_dsnmap_ := by
  obtain ⟨pre, m, post, hl, hpre, hm⟩ := first_cover_split seq _ hin
  have hunsent := attach_all_unsent calls a0 hempty
  have hm0 : m.sentseq = 0 := hunsent m (by rw [hl]; simp)
  have hpre1 : ∀ x ∈ pre, ¬ (x.sseqnum ≤ seq ∧ seq < x.sseqnum + x.length ∧
      (x.sentseq = 0 ∨ x.sentseq = seq)) := fun x hx hc => hpre x hx ⟨hc.1, hc.2.1⟩
  have h1 := (sendpacket_mapping_first_match_aux dataopt seq datalen (attach_all calls a0)
    tcph hd pre m post hl hpre1 ⟨hm.1, hm.2, Or.inl hm0⟩)
  have h2 := (sendpacket_mapping_first_match_aux dataopt seq datalen2
    { (sendpacket_mapping dataopt seq datalen (attach_all calls a0) tcph).1 with
      mptcp_option_size_ := opt2 } tcph2 hd2 pre { m with sentseq := seq } post
    (by rw [h1]) hpre1 ⟨hm.1, hm.2, Or.inr rfl⟩)
  refine ⟨⟨m, by rw [hl]; simp, hm, by rw [h1]⟩, ?_, ?_⟩
  · rw [h2, h1]
  · rw [h2, h1]

/-- C9 at the spec's example: after attaching (1000, 500) at write cursor 99,
a send at 150 selects (1000, 100, 500), and so does its retransmission. -/
theorem select_after_attach_idempotent_witness :
    (sendpacket_mapping 20 150 100
        { (sendpacket_mapping 20 150 100 (attach_all [(99, 1000, 500)] blankAgent)
            { mp_dsn := 0, mp_subseq := 0, mp_dsnlen := 0 }).1 with
          mptcp_option_size_ := 0 } { mp_dsn := 0, mp_subseq := 0, mp_dsnlen := 0 }).2
      = (sendpacket_mapping 20 150 100 (attach_all [(99, 1000, 500)] blankAgent)
          { mp_dsn := 0, mp_subseq := 0, mp_dsnlen := 0 }).2 :=
  (select_after_attach_idempotent 20 150 100 100 0 [(99, 1000, 500)] blankAgent
    { mp_dsn := 0, mp_subseq := 0, mp_dsnlen := 0 }
    { mp_dsn := 0, mp_subseq := 0, mp_dsnlen := 0 } rfl (by simp) (by decide) (by decide)
    ⟨{ sseqnum := 100, dseqnum := 1000, length := 500, sentseq := 0 },
      by simp [attach_all, mptcp_add_mapping, dsn_mapping.create, blankAgent],
      by decide⟩).2.1

/-- C10: when the only mapping of the outbound list whose range contains `seq`
was already sent at `s` with `s ≠ 0` and `s ≠ seq`, the mapping block of
`sendpacket` attaches no mapping: the header and the option size are
unchanged, and so is the outbound list, so that mapping still has
`sentseq = s`. -/
theorem sendpacket_mapping_rejects_other_resend (dataopt seq datalen s : Int)
    (a : MpFullTcpAgent) (tcph : hdr_tcp) (m : dsn_mapping)
    (hmem : m ∈ a.mptcp_dsnmap_)
    (_hcov : m.sseqnum ≤ seq ∧ seq < m.sseqnum + m.length)
    (honly : ∀ x ∈ a.mptcp_dsnmap_,
      (x.sseqnum ≤ seq ∧ seq < x.sseqnum + x.length) → x = m)
    (hs : m.sentseq = s) (hs0 : s ≠ 0) (hsne : s ≠ seq) :
    (sendpacket_mapping dataopt seq datalen a tcph).2 = tcph
      ∧ (sendpacket_mapping dataopt seq datalen a tcph).1.mptcp_option_size_
          = a.mptcp_option_size_
      ∧ (sendpacket_mapping dataopt seq datalen a tcph).1.mptcp_dsnmap_ = a.mptcp_dsnmap_
      ∧ (∃ x ∈ (sendpacket_mapping dataopt seq datalen a tcph).1.mptcp_dsnmap_,
          x = m ∧ x.sentseq = s) := by
  have hnone : ∀ x ∈ a.mptcp_dsnmap_, ¬ (x.sseqnum ≤ seq ∧ seq < x.sseqnum + x.length ∧
      (x.sentseq = 0 ∨ x.sentseq = seq)) := by
    intro x hx hc
    have hxm := honly x hx ⟨hc.1, hc.2.1⟩
    rw [hxm, hs] at hc
    rcases hc.2.2 with h | h
    · exact hs0 h
    · exact hsne h
  have hres := sendpacket_mapping_none_aux dataopt seq datalen a tcph hnone
  rw [hres]
  exact ⟨rfl, rfl, rfl, m, hmem, rfl, hs⟩

/-- C10 at the spec's example: the mapping (1000, 100, 500) was sent at 120;
a send at 150 attaches no mapping. -/
theorem sendpacket_mapping_rejects_other_resend_witness :
    (sendpacket_mapping 20 150 100
        { blankAgent with mptcp_dsnmap_ :=
            [{ sseqnum := 100, dseqnum := 1000, length := 500, sentseq := 120 }] }
        { mp_dsn := 0, mp_subseq := 0, mp_dsnlen := 0 }).2
      = { mp_dsn := 0, mp_subseq := 0, mp_dsnlen := 0 } :=
  (sendpacket_mapping_rejects_other_resend 20 150 100 120
    { blankAgent with mptcp_dsnmap_ :=
        [{ sseqnum := 100, dseqnum := 1000, length := 500, sentseq := 120 }] }
    { mp_dsn := 0, mp_subseq := 0, mp_dsnlen := 0 }
    { sseqnum := 100, dseqnum := 1000, length := 500, sentseq := 120 }
    (by simp [blankAgent]) (by decide)
    (fun x hx _ => by simpa [blankAgent] using hx)
    rfl (by decide) (by decide)).1

/-- C11: `mptcp_recv_getack (1)` returns 0 for every inbound list, the empty
one included; it does not reach the abort branch, makes no call on the core
and leaves the agent, hence the inbound list, unchanged. -/
theorem mptcp_recv_getack_one {σ : Type} (C : MptcpAgent σ) (a : MpFullTcpAgent) (core : σ) :
    (mptcp_recv_getack C 1 a core).ret = some 0
      ∧ (mptcp_recv_getack C 1 a core).calls = []
      ∧ (mptcp_recv_getack C 1 a core).agent = a
      ∧ (mptcp_recv_getack C 1 a core).agent.mptcp_recv_dsnmap_ = a.mptcp_recv_dsnmap_
      ∧ (mptcp_recv_getack C 1 a core).core = core := by
  unfold mptcp_recv_getack
  rw [if_pos rfl]
  exact ⟨rfl, rfl, rfl, rfl, rfl⟩

/-- C11 on the empty inbound list: ack 1 yields 0 and an empty list. -/
theorem mptcp_recv_getack_one_witness :
    (mptcp_recv_getack
        { set_dataack := fun (_ : Int) d off => d + off, get_dataack := fun s => (s, s) }
        1 blankAgent 0).ret = some 0
      ∧ (mptcp_recv_getack
        { set_dataack := fun (_ : Int) d off => d + off, get_dataack := fun s => (s, s) }
        1 blankAgent 0).agent.mptcp_recv_dsnmap_ = [] :=
  ⟨(mptcp_recv_getack_one
      { set_dataack := fun (_ : Int) d off => d + off, get_dataack := fun s => (s, s) }
      blankAgent 0).1,
   (mptcp_recv_getack_one
      { set_dataack := fun (_ : Int) d off => d + off, get_dataack := fun s => (s, s) }
      blankAgent 0).2.2.2.1⟩

/-- C13: the code at the failing input.  With outbound mappings
(1000, 100, 500) and (1500, 600, 500) and threshold 3000, both DSN ranges end
at or before the threshold, yet `mptcp_remove_mapping (3000)` erases only the
first one: the mapping (1500, 600, 500), with 1500 + 500 ≤ 3000, is still in
the list after the call. -/
theorem mptcp_remove_mapping_leaves_acked :
    (mptcp_remove_mapping 3000 twoMapAgent).mptcp_dsnmap_
        = [{ sseqnum := 600, dseqnum := 1500, length := 500, sentseq := 600 }]
      ∧ ∃ x ∈ (mptcp_remove_mapping 3000 twoMapAgent).mptcp_dsnmap_,
          x.dseqnum + x.length ≤ 3000 := by
  have h : (mptcp_remove_mapping 3000 twoMapAgent).mptcp_dsnmap_
      = [{ sseqnum := 600, dseqnum := 1500, length := 500, sentseq := 600 }] := by decide
  refine ⟨h, ?_⟩
  rw [h]
  exact ⟨_, List.mem_cons_self _ _, by decide⟩

/-- C14: `mptcp_remove_mapping (threshold)` erases at most one entry: the
outbound list afterwards is the list before with exactly the first mapping
satisfying `threshold > dseqnum + length` deleted, the others in their order
and unchanged; with no such mapping the list is unchanged.  The mappings with
`dseqnum + length ≥ threshold` are all kept. -/
theorem mptcp_remove_mapping_first_only (threshold : Int) (a : MpFullTcpAgent) :
    (∀ (pre : List dsn_mapping) (m : dsn_mapping) (post : List dsn_mapping),
        a.mptcp_dsnmap_ = pre ++ m :: post →
        (∀ x ∈ pre, ¬ (threshold > x.dseqnum + x.length)) →
        threshold > m.dseqnum + m.length →
        (mptcp_remove_mapping threshold a).mptcp_dsnmap_ = pre ++ post)
      ∧ ((∀ x ∈ a.mptcp_dsnmap_, ¬ (threshold > x.dseqnum + x.length)) →
        (mptcp_remove_mapping threshold a).mptcp_dsnmap_ = a.mptcp_dsnmap_)
      ∧ (mptcp_remove_mapping threshold a).mptcp_dsnmap_.filter
            (fun x => decide (x.dseqnum + x.length ≥ threshold))
          = a.mptcp_dsnmap_.filter (fun x => decide (x.dseqnum + x.length ≥ threshold))
      ∧ (mptcp_remove_mapping threshold a).mptcp_dsnmap_.length + 1
          ≥ a.mptcp_dsnmap_.length := by
  refine ⟨?_, ?_, ?_, ?_⟩
  · intro pre m post hl hpre hm
    show mptcp_remove_mapping_loop threshold a.mptcp_dsnmap_ = pre ++ post
    rw [hl]
    exact remove_loop_hit threshold pre m post hpre hm
  · intro hnone
    exact remove_loop_none threshold a.mptcp_dsnmap_ hnone
  · exact remove_loop_keeps threshold a.mptcp_dsnmap_
  · show (mptcp_remove_mapping_loop threshold a.mptcp_dsnmap_).length + 1
      ≥ a.mptcp_dsnmap_.length
    generalize a.mptcp_dsnmap_ = l
    induction l with
    | nil => simp
    | cons p rest ih =>
      unfold mptcp_remove_mapping_loop
      by_cases hc : threshold > p.dseqnum + p.length
      · rw [if_pos hc]; simp
      · rw [if_neg hc]; simp only [List.length_cons]; omega

/-- C14 on a concrete list: with mappings (1000, 100, 500) and
(1500, 600, 500), threshold 1501 erases the first and keeps the second. -/
theorem mptcp_remove_mapping_first_only_witness :
    (mptcp_remove_mapping 1501 twoMapAgent).mptcp_dsnmap_
      = [] ++ [{ sseqnum := 600, dseqnum := 1500, length := 500, sentseq := 600 }] :=
  (mptcp_remove_mapping_first_only 1501 twoMapAgent).1 []
    { sseqnum := 100, dseqnum := 1000, length := 500, sentseq := 100 }
    [{ sseqnum := 600, dseqnum := 1500, length := 500, sentseq := 600 }]
    rfl (fun _ hx => by cases hx) (by decide)

/-- C15: with `maxseg_ > 0`, after `mptcp_set_byteacked` the accumulator is
`delta / maxseg_`, where `delta = highest_ack - prev_ackno - prev_sqtotal` when
`sq_.minseq () < 0`, and otherwise `delta = sq_.minseq () - prev_sqminseq`
when `sq_.minseq () > prev_sqminseq` and `prev_sqminseq > 0`, else
`delta = sq_.total () - prev_sqtotal`; the snapshots afterwards are
`sq_.total ()`, `sq_.minseq ()` and `highest_ack`; the previous value of the
accumulator has no influence. -/
theorem mptcp_set_byteacked_delta (divide : Int → Int → ℚ) (sq_minseq sq_total : Int)
    (a : MpFullTcpAgent) (_hseg : 0 < a.maxseg_) :
    (sq_minseq < 0 →
        (mptcp_set_byteacked divide sq_minseq sq_total a).mptcp_byte_acked_
          = divide (a.highest_ack_ - a.mptcp_prev_ackno_ - a.mptcp_prev_sqtotal_) a.maxseg_)
      ∧ (¬ sq_minseq < 0 →
          (sq_minseq > a.mptcp_prev_sqminseq_ ∧ a.mptcp_prev_sqminseq_ > 0) →
          (mptcp_set_byteacked divide sq_minseq sq_total a).mptcp_byte_acked_
            = divide (sq_minseq - a.mptcp_prev_sqminseq_) a.maxseg_)
      ∧ (¬ sq_minseq < 0 →
          ¬ (sq_minseq > a.mptcp_prev_sqminseq_ ∧ a.mptcp_prev_sqminseq_ > 0) →
          (mptcp_set_byteacked divide sq_minseq sq_total a).mptcp_byte_acked_
            = divide (sq_total - a.mptcp_prev_sqtotal_) a.maxseg_)
      ∧ (mptcp_set_byteacked divide sq_minseq sq_total a).mptcp_prev_sqtotal_ = sq_total
      ∧ (mptcp_set_byteacked divide sq_minseq sq_total a).mptcp_prev_sqminseq_ = sq_minseq
      ∧ (mptcp_set_byteacked divide sq_minseq sq_total a).mptcp_prev_ackno_ = a.highest_ack_
      ∧ (∀ b : ℚ,
          mptcp_set_byteacked divide sq_minseq sq_total { a with mptcp_byte_acked_ := b }
            = mptcp_set_byteacked divide sq_minseq sq_total a) := by
  refine ⟨?_, ?_, ?_, rfl, rfl, rfl, fun _ => rfl⟩
  · intro h
    simp only [mptcp_set_byteacked, if_pos h, Int.zero_add]
  · intro h h2
    simp only [mptcp_set_byteacked, if_neg h, if_pos h2]
  · intro h h2
    simp only [mptcp_set_byteacked, if_neg h, if_neg h2]

/-- C15 on a concrete state without SACK blocks and with exact division:
`highest_ack = 3001`, `prev_ackno = 1`, `prev_sqtotal = 0`, `maxseg = 1000`
give an accumulator of 3 segments. -/
theorem mptcp_set_byteacked_delta_witness :
    (mptcp_set_byteacked (fun d m => (d : ℚ) / (m : ℚ)) (-1) 0
      { blankAgent with highest_ack_ := 3001, mptcp_prev_ackno_ := 1,
                        maxseg_ := 1000 }).mptcp_byte_acked_ = 3 :=
  ((mptcp_set_byteacked_delta (fun d m => (d : ℚ) / (m : ℚ)) (-1) 0
      { blankAgent with highest_ack_ := 3001, mptcp_prev_ackno_ := 1, maxseg_ := 1000 }
      (by decide)).1 (by decide)).trans (by norm_num [blankAgent])

/-- C19: on every path of `opencwnd` the accumulator `mptcp_byte_acked_` is 0
after the call, and `ssthresh_`, both mapping lists and the snapshots
`mptcp_prev_ackno_`, `mptcp_prev_sqminseq_`, `mptcp_prev_sqtotal_` are
unchanged. -/
theorem opencwnd_resets_byte_acked (limited_slow_start : ℚ → Int → ℚ → ℚ)
    (timeout : Int) (alpha totalcwnd : ℚ) (a : MpFullTcpAgent) :
    (opencwnd limited_slow_start timeout alpha totalcwnd a).mptcp_byte_acked_ = 0
      ∧ (opencwnd limited_slow_start timeout alpha totalcwnd a).ssthresh_ = a.ssthresh_
      ∧ (opencwnd limited_slow_start timeout alpha totalcwnd a).mptcp_dsnmap_
          = a.mptcp_dsnmap_
      ∧ (opencwnd limited_slow_start timeout alpha totalcwnd a).mptcp_recv_dsnmap_
          = a.mptcp_recv_dsnmap_
      ∧ (opencwnd limited_slow_start timeout alpha totalcwnd a).mptcp_prev_ackno_
          = a.mptcp_prev_ackno_
      ∧ (opencwnd limited_slow_start timeout alpha totalcwnd a).mptcp_prev_sqminseq_
          = a.mptcp_prev_sqminseq_
      ∧ (opencwnd limited_slow_start timeout alpha totalcwnd a).mptcp_prev_sqtotal_
          = a.mptcp_prev_sqtotal_ :=
  ⟨rfl, rfl, rfl, rfl, rfl, rfl, rfl⟩

/-- C18: the mapping block of `sendpacket` changes a mapping only by setting
`sentseq` at its first transmission.  After the call the outbound list has
the same length and order, every mapping has the same `dseqnum`, `sseqnum` and
`length` as before, a mapping whose `sentseq` was non-zero keeps it, and the
list is either unchanged or differs from the old one in the `sentseq` of a
single mapping. -/
theorem sendpacket_mapping_only_marks (dataopt seq datalen : Int) (a : MpFullTcpAgent)
    (tcph : hdr_tcp) :
    (sendpacket_mapping dataopt seq datalen a tcph).1.mptcp_dsnmap_.length
        = a.mptcp_dsnmap_.length
      ∧ List.Forall₂
          (fun x y => y.dseqnum = x.dseqnum ∧ y.sseqnum = x.sseqnum ∧ y.length = x.length
            ∧ (x.sentseq ≠ 0 → y.sentseq = x.sentseq))
          a.mptcp_dsnmap_ (sendpacket_mapping dataopt seq datalen a tcph).1.mptcp_dsnmap_
      ∧ ((sendpacket_mapping dataopt seq datalen a tcph).1.mptcp_dsnmap_ = a.mptcp_dsnmap_
          ∨ ∃ pre m post, a.mptcp_dsnmap_ = pre ++ m :: post
              ∧ (sendpacket_mapping dataopt seq datalen a tcph).1.mptcp_dsnmap_
                  = pre ++ { m with sentseq := seq } :: post) := by
  have hrefl : ∀ x : dsn_mapping, x.dseqnum = x.dseqnum ∧ x.sseqnum = x.sseqnum
      ∧ x.length = x.length ∧ (x.sentseq ≠ 0 → x.sentseq = x.sentseq) :=
    fun _ => ⟨rfl, rfl, rfl, fun _ => rfl⟩
  rcases sendpacket_mapping_cases dataopt seq datalen a tcph with h | ⟨pre, m, post, hl, hs, h⟩
  · rw [h]
    exact ⟨rfl, List.forall₂_same.mpr (fun x _ => hrefl x), Or.inl rfl⟩
  · rw [h]
    refine ⟨by rw [hl]; simp, ?_, Or.inr ⟨pre, m, post, hl, rfl⟩⟩
    rw [hl]
    refine forall₂_update_one hrefl pre m _ post ⟨rfl, rfl, rfl, ?_⟩
    intro hne
    rcases hs with h0 | hseq
    · exact absurd h0 hne
    · exact hseq.symm

/-- C18 on a concrete list: the mapping (1000, 100, 500) sent at 120 and an
unsent mapping (2000, 120, 100); a send at 150 marks the second one and
leaves every other field as it was. -/
theorem sendpacket_mapping_only_marks_witness :
    (sendpacket_mapping 20 150 100
        { blankAgent with mptcp_dsnmap_ :=
            [{ sseqnum := 100, dseqnum := 1000, length := 500, sentseq := 120 },
             { sseqnum := 120, dseqnum := 2000, length := 100, sentseq := 0 }] }
        { mp_dsn := 0, mp_subseq := 0, mp_dsnlen := 0 }).1.mptcp_dsnmap_.length
      = ({ blankAgent with mptcp_dsnmap_ :=
            [{ sseqnum := 100, dseqnum := 1000, length := 500, sentseq := 120 },
             { sseqnum := 120, dseqnum := 2000, length := 100, sentseq := 0 }] }
          : MpFullTcpAgent).mptcp_dsnmap_.length :=
  (sendpacket_mapping_only_marks 20 150 100
    { blankAgent with mptcp_dsnmap_ :=
        [{ sseqnum := 100, dseqnum := 1000, length := 500, sentseq := 120 },
         { sseqnum := 120, dseqnum := 2000, length := 100, sentseq := 0 }] }
    { mp_dsn := 0, mp_subseq := 0, mp_dsnlen := 0 }).1

/-- C16, as stated, fails for `mptcp_add_mapping`: the outbound list of the
spec's example, [(1000, 100, 500)], has pairwise disjoint ranges; a second
`mptcp_add_mapping (1500, 500)` before the write cursor has moved appends a
mapping with the same range [100, 600), and the ranges overlap. -/
theorem outbound_ranges_overlap_counterexample :
    attachedAgent.mptcp_dsnmap_
        = [{ sseqnum := 100, dseqnum := 1000, length := 500, sentseq := 0 }]
      ∧ attachedAgent.mptcp_dsnmap_.Pairwise
          (fun x y => x.sseqnum + x.length ≤ y.sseqnum ∨ y.sseqnum + y.length ≤ x.sseqnum)
      ∧ (mptcp_add_mapping 1500 500 attachedAgent).mptcp_dsnmap_
          = [{ sseqnum := 100, dseqnum := 1000, length := 500, sentseq := 0 },
             { sseqnum := 100, dseqnum := 1500, length := 500, sentseq := 0 }]
      ∧ ¬ (mptcp_add_mapping 1500 500 attachedAgent).mptcp_dsnmap_.Pairwise
          (fun x y => x.sseqnum + x.length ≤ y.sseqnum ∨ y.sseqnum + y.length ≤ x.sseqnum) := by
  have h1 : attachedAgent.mptcp_dsnmap_
      = [{ sseqnum := 100, dseqnum := 1000, length := 500, sentseq := 0 }] := by decide
  have h2 : (mptcp_add_mapping 1500 500 attachedAgent).mptcp_dsnmap_
      = [{ sseqnum := 100, dseqnum := 1000, length := 500, sentseq := 0 },
         { sseqnum := 100, dseqnum := 1500, length := 500, sentseq := 0 }] := by decide
  refine ⟨h1, ?_, h2, ?_⟩
  · rw [h1]; exact List.pairwise_singleton _ _
  · rw [h2]
    intro h
    have := (List.pairwise_cons.mp h).1 _ (List.mem_cons_self _ _)
    revert this
    decide

/-- C16 (amended): the predicate "the subflow-sequence ranges
[sseqnum, sseqnum + length) of the outbound mappings are pairwise
non-overlapping" holds for the empty list, is preserved by the mapping block
of `sendpacket` and by `mptcp_remove_mapping`, and is preserved by
`mptcp_add_mapping` whenever the new range [curseq + 1, curseq + 1 + length)
overlaps no range already in the list. -/
theorem outbound_ranges_disjoint_preserved (a : MpFullTcpAgent)
    (h : a.mptcp_dsnmap_.Pairwise
      (fun x y => x.sseqnum + x.length ≤ y.sseqnum ∨ y.sseqnum + y.length ≤ x.sseqnum)) :
    ([] : List dsn_mapping).Pairwise
        (fun x y => x.sseqnum + x.length ≤ y.sseqnum ∨ y.sseqnum + y.length ≤ x.sseqnum)
      ∧ (∀ d n : Int,
          (∀ x ∈ a.mptcp_dsnmap_, x.sseqnum + x.length ≤ a.curseq_ + 1
            ∨ a.curseq_ + 1 + n ≤ x.sseqnum) →
          (mptcp_add_mapping d n a).mptcp_dsnmap_.Pairwise
            (fun x y => x.sseqnum + x.length ≤ y.sseqnum ∨ y.sseqnum + y.length ≤ x.sseqnum))
      ∧ (∀ (dataopt seq datalen : Int) (tcph : hdr_tcp),
          (sendpacket_mapping dataopt seq datalen a tcph).1.mptcp_dsnmap_.Pairwise
            (fun x y => x.sseqnum + x.length ≤ y.sseqnum ∨ y.sseqnum + y.length ≤ x.sseqnum))
      ∧ (∀ threshold : Int,
          (mptcp_remove_mapping threshold a).mptcp_dsnmap_.Pairwise
            (fun x y => x.sseqnum + x.length ≤ y.sseqnum
              ∨ y.sseqnum + y.length ≤ x.sseqnum)) := by
  refine ⟨List.Pairwise.nil, ?_, ?_, ?_⟩
  · intro d n hnew
    show (a.mptcp_dsnmap_ ++ [dsn_mapping.create d (a.curseq_ + 1) n]).Pairwise _
    rw [List.pairwise_append]
    refine ⟨h, List.pairwise_singleton _ _, ?_⟩
    intro x hx y hy
    rw [List.mem_singleton] at hy
    subst hy
    exact hnew x hx
  · intro dataopt seq datalen tcph
    exact pairwise_ranges_of_forall₂ _ _
      (sendpacket_mapping_ranges dataopt seq datalen a tcph) h
  · intro threshold
    exact h.sublist (remove_loop_sublist threshold a.mptcp_dsnmap_)

/-- C16 (amended) on the spec's example: with the outbound list
[(1000, 100, 500)] and the write cursor moved to 599, attaching (1500, 500)
keeps the ranges disjoint. -/
theorem outbound_ranges_disjoint_preserved_witness :
    (mptcp_add_mapping 1500 500
        { attachedAgent with curseq_ := 599 }).mptcp_dsnmap_.Pairwise
      (fun x y => x.sseqnum + x.length ≤ y.sseqnum ∨ y.sseqnum + y.length ≤ x.sseqnum) :=
  (outbound_ranges_disjoint_preserved { attachedAgent with curseq_ := 599 }
    (List.pairwise_singleton _ _)).2.1 1500 500
    (fun x hx => by
      have hx2 : x = { sseqnum := 100, dseqnum := 1000, length := 500, sentseq := 0 } := by
        simpa [attachedAgent, mptcp_add_mapping, dsn_mapping.create, blankAgent] using hx
      subst hx2
      decide)

/-- C12, as stated, fails in two ways.  With the contiguous inbound mappings
(10, 1, 100) and (110, 101, 50), ack 121 evicts the first mapping, and a
following `mptcp_recv_getack (1)`, whose ack lies inside the evicted range
[1, 101), returns 0 instead of failing.  With the mappings (10, 1, 100) and
(60, 50, 100), in subflow-sequence order but overlapping, ack 120 evicts the
first mapping, and a following call with ack 60, inside the evicted range,
is resolved by the second mapping. -/
theorem getack_evicted_range_counterexample :
    ((mptcp_recv_getack sumCore 121 inboundAgent 0).agent.mptcp_recv_dsnmap_
        = [{ sseqnum := 101, dseqnum := 110, length := 50, sentseq := 0 }]
      ∧ ((1 : Int) ≤ 1 ∧ (1 : Int) < 1 + 100)
      ∧ (mptcp_recv_getack sumCore 1 (mptcp_recv_getack sumCore 121 inboundAgent 0).agent
          (mptcp_recv_getack sumCore 121 inboundAgent 0).core).ret = some 0)
    ∧ ((mptcp_recv_getack sumCore 120 overlapAgent 0).agent.mptcp_recv_dsnmap_
        = [{ sseqnum := 50, dseqnum := 60, length := 100, sentseq := 0 }]
      ∧ ((1 : Int) ≤ 60 ∧ (60 : Int) < 1 + 100)
      ∧ (mptcp_recv_getack sumCore 60 (mptcp_recv_getack sumCore 120 overlapAgent 0).agent
          (mptcp_recv_getack sumCore 120 overlapAgent 0).core).ret = some 70) := by
  refine ⟨⟨?_, ?_, ?_⟩, ⟨?_, ?_, ?_⟩⟩ <;> decide

/-- C12 (amended): on an inbound list in subflow-sequence order with disjoint
ranges (every mapping ends at or before the start of each later one), a
`mptcp_recv_getack (ack)` that succeeds with `ack` strictly greater than the
end of a mapping `i` removes `i` from the inbound list, and a following call
with an ack other than 1 inside the range [s_i, s_i + l_i) of the evicted
mapping ends in the abort branch. -/
theorem getack_evicts_below {σ : Type} (C : MptcpAgent σ) (ack ack2 : Int)
    (a : MpFullTcpAgent) (core core2 : σ) (i : dsn_mapping)
    (hdisj : a.mptcp_recv_dsnmap_.Pairwise (fun x y => x.sseqnum + x.length ≤ y.sseqnum))
    (hack : ack ≠ 1)
    (hsucc : ∃ m ∈ a.mptcp_recv_dsnmap_, m.sseqnum ≤ ack ∧ ack ≤ m.sseqnum + m.length)
    (hi : i ∈ a.mptcp_recv_dsnmap_) (hgt : ack > i.sseqnum + i.length)
    (hack2 : ack2 ≠ 1) (hin : i.sseqnum ≤ ack2 ∧ ack2 < i.sseqnum + i.length) :
    i ∉ (mptcp_recv_getack C ack a core).agent.mptcp_recv_dsnmap_
      ∧ (mptcp_recv_getack C ack2 (mptcp_recv_getack C ack a core).agent core2).ret
          = none := by
  rcases first_split (fun x : dsn_mapping => x.sseqnum ≤ ack ∧ ack ≤ x.sseqnum + x.length)
      a.mptcp_recv_dsnmap_ with hnone | ⟨pre, m, post, hl, hpre, hm⟩
  · obtain ⟨m, hmem, hcov⟩ := hsucc
    exact absurd hcov (hnone m hmem)
  · have hmaps := getack_maps_eq_loop C ack a core hack
    rw [hl, getack_loop_maps_hit C ack core pre m post hpre hm] at hmaps
    rw [hl, List.pairwise_append] at hdisj
    obtain ⟨_, htail, hcross⟩ := hdisj
    have hipre : i ∈ pre := by
      rw [hl, List.mem_append] at hi
      rcases hi with h | h
      · exact h
      · exfalso
        rcases List.mem_cons.mp h with rfl | h
        · omega
        · have := (List.pairwise_cons.mp htail).1 i h
          omega
    have hnocover : ∀ z ∈ (mptcp_recv_getack C ack a core).agent.mptcp_recv_dsnmap_,
        ¬ (z.sseqnum ≤ ack2 ∧ ack2 ≤ z.sseqnum + z.length) := by
      intro z hz hc
      rw [hmaps, List.mem_append] at hz
      rcases hz with h | h
      · rw [List.mem_filter] at h
        have hk : ack ≤ z.sseqnum + z.length := by simpa using h.2
        have := hpre z h.1
        omega
      · have := hcross i hipre z h
        omega
    constructor
    · intro hmem
      rw [hmaps, List.mem_append] at hmem
      rcases hmem with h | h
      · rw [List.mem_filter] at h
        have hk : ack ≤ i.sseqnum + i.length := by simpa using h.2
        omega
      · have := hcross i hipre i h
        omega
    · rw [getack_ret_eq_loop C ack2 _ core2 hack2]
      exact (getack_loop_none C ack2 core2 _ hnocover).1

/-- C12 (amended) on the contiguous inbound mappings (10, 1, 100) and
(110, 101, 50): ack 121 evicts the first mapping, and a following call with
ack 50 ends in the abort branch. -/
theorem getack_evicts_below_witness :
    (mptcp_recv_getack sumCore 50 (mptcp_recv_getack sumCore 121 inboundAgent 0).agent 130).ret
      = none :=
  (getack_evicts_below sumCore 121 50 inboundAgent 0 130
    { sseqnum := 1, dseqnum := 10, length := 100, sentseq := 0 }
    (by decide) (by decide)
    ⟨{ sseqnum := 101, dseqnum := 110, length := 50, sentseq := 0 }, by decide, by decide⟩
    (by decide) (by decide) (by decide) (by decide)).2

/-- C17, as stated, fails at the boundary: with the inbound mappings
(10, 1, 100) and (110, 101, 50), ack 101 is resolved by the first mapping,
whose end 1 + 100 is ≤ 101; the scan visits it, the call succeeds, and the
mapping is still in the inbound list afterwards. -/
theorem getack_eviction_counterexample :
    (101 : Int) ≠ 1
      ∧ (mptcp_recv_getack sumCore 101 inboundAgent 0).ret = some 110
      ∧ (mptcp_recv_getack sumCore 101 inboundAgent 0).agent.mptcp_recv_dsnmap_
          = [{ sseqnum := 1, dseqnum := 10, length := 100, sentseq := 0 },
             { sseqnum := 101, dseqnum := 110, length := 50, sentseq := 0 }]
      ∧ (1 : Int) + 100 ≤ 101 := by
  refine ⟨?_, ?_, ?_, ?_⟩ <;> decide

/-- C17 (amended): when `mptcp_recv_getack` succeeds for an ack other than 1,
every mapping visited by the scan whose end `sseqnum + length` is < ack has
been removed when the call returns: with `m` the resolving mapping and `pre`
the mappings before it, the inbound list afterwards is the mappings of `pre`
with `ack ≤ sseqnum + length`, then `m` and everything after it. -/
theorem getack_evicts_visited {σ : Type} (C : MptcpAgent σ) (ack : Int)
    (a : MpFullTcpAgent) (core : σ) (pre : List dsn_mapping) (m : dsn_mapping)
    (post : List dsn_mapping) (hack : ack ≠ 1)
    (hl : a.mptcp_recv_dsnmap_ = pre ++ m :: post)
    (hpre : ∀ x ∈ pre, ¬ (x.sseqnum ≤ ack ∧ ack ≤ x.sseqnum + x.length))
    (hm : m.sseqnum ≤ ack ∧ ack ≤ m.sseqnum + m.length) :
    (mptcp_recv_getack C ack a core).agent.mptcp_recv_dsnmap_
        = pre.filter (fun x => decide (ack ≤ x.sseqnum + x.length)) ++ m :: post
      ∧ (∀ x ∈ pre.filter (fun x => decide (ack ≤ x.sseqnum + x.length)),
          ¬ (x.sseqnum + x.length < ack))
      ∧ (∀ x ∈ pre, x.sseqnum + x.length < ack →
          x ∉ pre.filter (fun x => decide (ack ≤ x.sseqnum + x.length))) := by
  refine ⟨?_, ?_, ?_⟩
  · rw [getack_maps_eq_loop C ack a core hack, hl]
    exact getack_loop_maps_hit C ack core pre m post hpre hm
  · intro x hx
    rw [List.mem_filter] at hx
    have hk : ack ≤ x.sseqnum + x.length := by simpa using hx.2
    omega
  · intro x _ hlt hx
    rw [List.mem_filter] at hx
    have hk : ack ≤ x.sseqnum + x.length := by simpa using hx.2
    omega

/-- C17 (amended) on the inbound mappings (10, 1, 100) and (110, 101, 50):
ack 121 is resolved by the second mapping and the first one, which ends at
101 < 121, is gone. -/
theorem getack_evicts_visited_witness :
    (mptcp_recv_getack sumCore 121 inboundAgent 0).agent.mptcp_recv_dsnmap_
      = [{ sseqnum := 1, dseqnum := 10, length := 100, sentseq := 0 }].filter
          (fun x => decide ((121 : Int) ≤ x.sseqnum + x.length))
        ++ [{ sseqnum := 101, dseqnum := 110, length := 50, sentseq := 0 }] :=
  (getack_evicts_visited sumCore 121 inboundAgent 0
    [{ sseqnum := 1, dseqnum := 10, length := 100, sentseq := 0 }]
    { sseqnum := 101, dseqnum := 110, length := 50, sentseq := 0 } []
    (by decide) rfl (by decide) (by decide)).1

/-- C20: eviction in `mptcp_recv_getack` never destroys a mapping a later
acknowledgment needs.  After a successful call with an ack other than 1, for
every `ack2 ≥ ack`: if some mapping of the list before the call covers `ack2`
then some mapping of the list after the call covers it, and a following call
with `ack2` does not end in the abort branch.  The list after the call is an
order-preserving sublist of the list before, and every mapping with
`ack ≤ sseqnum + length` is kept, so every removed mapping has
`sseqnum + length < ack`. -/
theorem getack_eviction_safe {σ : Type} (C : MptcpAgent σ) (ack ack2 : Int)
    (a : MpFullTcpAgent) (core core2 : σ) (hack : ack ≠ 1)
    (_hret : (mptcp_recv_getack C ack a core).ret ≠ none) (hge : ack ≤ ack2) :
    ((∃ m ∈ a.mptcp_recv_dsnmap_, m.sseqnum ≤ ack2 ∧ ack2 ≤ m.sseqnum + m.length) →
        (∃ m ∈ (mptcp_recv_getack C ack a core).agent.mptcp_recv_dsnmap_,
          m.sseqnum ≤ ack2 ∧ ack2 ≤ m.sseqnum + m.length)
        ∧ (mptcp_recv_getack C ack2 (mptcp_recv_getack C ack a core).agent core2).ret
            ≠ none)
      ∧ (mptcp_recv_getack C ack a core).agent.mptcp_recv_dsnmap_.Sublist
          a.mptcp_recv_dsnmap_
      ∧ (mptcp_recv_getack C ack a core).agent.mptcp_recv_dsnmap_.filter
            (fun x => decide (ack ≤ x.sseqnum + x.length))
          = a.mptcp_recv_dsnmap_.filter (fun x => decide (ack ≤ x.sseqnum + x.length)) := by
  have hmaps := getack_maps_eq_loop C ack a core hack
  have hkeep := getack_loop_maps_keeps C ack core a.mptcp_recv_dsnmap_
  refine ⟨?_, ?_, ?_⟩
  · rintro ⟨m, hmem, hcov⟩
    have hm2 : m ∈ (mptcp_recv_getack C ack a core).agent.mptcp_recv_dsnmap_ := by
      have hf : m ∈ a.mptcp_recv_dsnmap_.filter
          (fun x => decide (ack ≤ x.sseqnum + x.length)) := by
        rw [List.mem_filter]
        exact ⟨hmem, by simpa using (by omega : ack ≤ m.sseqnum + m.length)⟩
      rw [← hkeep, ← hmaps] at hf
      exact (List.mem_filter.mp hf).1
    refine ⟨⟨m, hm2, hcov⟩, ?_⟩
    by_cases h1 : ack2 = 1
    · subst h1
      unfold mptcp_recv_getack
      rw [if_pos rfl]
      simp
    · rw [getack_ret_eq_loop C ack2 _ core2 h1]
      obtain ⟨v, hv, _⟩ := getack_loop_some_of_mem C ack2 core2 _ ⟨m, hm2, hcov⟩
      rw [hv]
      simp
  · rw [hmaps]
    exact getack_loop_maps_sublist C ack core a.mptcp_recv_dsnmap_
  · rw [hmaps]
    exact hkeep

/-- C20 on the inbound mappings (10, 1, 100) and (110, 101, 50): after ack
121, the later ack 130 is still covered by a mapping of the list. -/
theorem getack_eviction_safe_witness :
    ∃ m ∈ (mptcp_recv_getack sumCore 121 inboundAgent 0).agent.mptcp_recv_dsnmap_,
      m.sseqnum ≤ 130 ∧ 130 ≤ m.sseqnum + m.length :=
  ((getack_eviction_safe sumCore 121 130 inboundAgent 0 130 (by decide) (by decide)
    (by decide)).1
    ⟨{ sseqnum := 101, dseqnum := 110, length := 50, sentseq := 0 },
      by decide, by decide⟩).1

end MpFullTcp
